import Mathlib

/-!
# Verification of the agntx install-state reconciliation engine

A shallow embedding of the core of the `agntx` CLI (source discovery,
install planning/materialization, runtime-manifest persistence, drift
validation and removal), together with theorems settling the frozen claims
about it.

The filesystem is modelled as an association list from absolute paths
(lists of segments) to entries (regular file, JSON file, directory,
symlink).  `fs.existsSync` follows symlinks at the final component, as
Node's `fs.existsSync` does; symlinks in intermediate components are not
modelled, since no claim concerns them.  File contents are `String`s; the
byte level of JSON serialization is modelled at the JSON-value level
(`JSON.parse ∘ JSON.stringify` is the identity on JSON values).
-/

namespace Agntx

/-! ## Paths

An absolute path is the list of its segments from the filesystem root.
`path.join(a, b)` with a single-segment `b` is `a ++ [b]`;
`path.dirname` is `List.dropLast`. -/

abbrev Path := List String

/-- A normalized absolute path, the form `path.resolve` produces:
no `..`, `.` or empty segments. -/
def Path.normalized (p : Path) : Prop :=
  ∀ s ∈ p, s ≠ ".." ∧ s ≠ "." ∧ s ≠ ""

instance (p : Path) : Decidable p.normalized := by
  unfold Path.normalized; infer_instance

/-- Length of the longest shared leading segment run of two paths. -/
def sharedLen : List String → List String → Nat
  | a :: as, b :: bs => if a = b then sharedLen as bs + 1 else 0
  | _, _ => 0

/-- `path.relative(fromP, toP)` for absolute paths: strip the common
leading segments, then one `..` per remaining segment of `fromP`,
followed by the remaining segments of `toP`. -/
def relSegs (fromP toP : Path) : List String :=
  List.replicate (fromP.length - sharedLen fromP toP) ".." ++
    toP.drop (sharedLen fromP toP)

/-- `path.resolve(base, rel)` for a relative `rel` against an absolute
`base`: `..` pops a segment, any other segment is appended. -/
def resolveRel (base : Path) (rel : List String) : Path :=
  rel.foldl (fun acc s => if s = ".." then acc.dropLast else acc ++ [s]) base

theorem sharedLen_le_left (a b : List String) : sharedLen a b ≤ a.length := by
  induction a generalizing b with
  | nil => simp [sharedLen]
  | cons x xs ih =>
    cases b with
    | nil => simp [sharedLen]
    | cons y ys =>
      by_cases h : x = y <;> simp [sharedLen, h, Nat.succ_le_succ, ih]

theorem sharedLen_take (a b : List String) :
    a.take (sharedLen a b) = b.take (sharedLen a b) := by
  induction a generalizing b with
  | nil => simp [sharedLen]
  | cons x xs ih =>
    cases b with
    | nil => simp [sharedLen]
    | cons y ys =>
      by_cases h : x = y
      · simp [sharedLen, h, ih]
      · simp [sharedLen, h]

theorem resolveRel_nil (base : Path) : resolveRel base [] = base := rfl

theorem resolveRel_noDotDot (base : Path) (rel : List String)
    (h : ∀ s ∈ rel, s ≠ "..") : resolveRel base rel = base ++ rel := by
  induction rel generalizing base with
  | nil => simp [resolveRel]
  | cons s rest ih =>
    have hs : s ≠ ".." := h s (by simp)
    have hrest : ∀ t ∈ rest, t ≠ ".." := fun t ht => h t (by simp [ht])
    simp only [resolveRel, List.foldl_cons, if_neg hs]
    have := ih (base ++ [s]) hrest
    simp only [resolveRel] at this
    simp [this]

theorem resolveRel_replicate (base : Path) (m : Nat) :
    resolveRel base (List.replicate m "..") = base.take (base.length - m) := by
  induction m generalizing base with
  | zero => simp [resolveRel]
  | succ k ih =>
    have step : resolveRel base (List.replicate (k + 1) "..") =
        resolveRel base.dropLast (List.replicate k "..") := by
      simp [resolveRel, List.replicate_succ]
    rw [step, ih]
    rw [List.dropLast_eq_take]
    simp only [List.length_take, List.take_take]
    congr 1
    omega

theorem resolveRel_append (base : Path) (r₁ r₂ : List String) :
    resolveRel base (r₁ ++ r₂) = resolveRel (resolveRel base r₁) r₂ := by
  simp [resolveRel, List.foldl_append]

/-- Resolving `path.relative(fromP, toP)` against `fromP` recovers `toP`,
for a normalized destination (no `..` segments). -/
theorem resolveRel_relSegs (fromP toP : Path) (h : ∀ s ∈ toP, s ≠ "..") :
    resolveRel fromP (relSegs fromP toP) = toP := by
  unfold relSegs
  rw [resolveRel_append, resolveRel_replicate]
  have hk : fromP.length - (fromP.length - sharedLen fromP toP) =
      sharedLen fromP toP := by
    have := sharedLen_le_left fromP toP
    omega
  rw [hk, sharedLen_take]
  rw [resolveRel_noDotDot _ _ (fun s hs => h s (List.mem_of_mem_drop hs))]
  exact List.take_append_drop _ _

/-- `root` is an ancestor-or-self of `p` (segmentwise). -/
def under : Path → Path → Bool
  | [], _ => true
  | _ :: _, [] => false
  | r :: rs, p :: ps => decide (r = p) && under rs ps

theorem under_append (r t : Path) : under r (r ++ t) = true := by
  induction r with
  | nil => rfl
  | cons x xs ih => simp [under, ih]

theorem under_iff {r p : Path} : under r p = true ↔ ∃ t, p = r ++ t := by
  constructor
  · intro h
    induction r generalizing p with
    | nil => exact ⟨p, rfl⟩
    | cons x xs ih =>
      cases p with
      | nil => simp [under] at h
      | cons y ys =>
        simp only [under, Bool.and_eq_true, decide_eq_true_eq] at h
        obtain ⟨rfl, h2⟩ := h
        obtain ⟨t, rfl⟩ := ih h2
        exact ⟨t, rfl⟩
  · rintro ⟨t, rfl⟩
    exact under_append r t

theorem under_append_left (r s t : Path) :
    under (r ++ s) (r ++ t) = under s t := by
  induction r with
  | nil => rfl
  | cons x xs ih => simp [under, ih]

theorem under_refl (p : Path) : under p p = true := by
  simpa using under_append p []

/-- `String.prototype.startsWith`, at the character level so the kernel
can evaluate it. -/
def strStartsWith (s pre : String) : Bool := pre.data.isPrefixOf s.data

/-- `String.prototype.endsWith`, at the character level. -/
def strEndsWith (s suffix : String) : Bool := suffix.data.isSuffixOf s.data

/-! ## JSON values

`JSON.stringify`/`JSON.parse` are modelled at the value level: a JSON
file stores the value its bytes parse to. -/

inductive Jval where
  | null : Jval
  | bool (b : Bool) : Jval
  | num (n : Int) : Jval
  | str (s : String) : Jval
  | arr (items : List Jval) : Jval
  | obj (fields : List (String × Jval)) : Jval

/-- Field lookup on a JSON object (JS property access). -/
def Jval.get : Jval → String → Option Jval
  | .obj fields, k =>
    match fields.find? (fun kv => kv.1 == k) with
    | some kv => some kv.2
    | none => none
  | _, _ => none

/-- `Array.isArray`. -/
def Jval.isArr : Jval → Bool
  | .arr _ => true
  | _ => false

/-! ## Filesystem model -/

inductive FsEntry where
  | file (content : String) : FsEntry
  | jsonFile (val : Jval) : FsEntry
  | dir : FsEntry
  | symlink (link : List String) : FsEntry

def FsEntry.isSymbolicLink : FsEntry → Bool
  | .symlink _ => true
  | _ => false

/-- The filesystem: an association list from absolute paths to entries
(first binding wins). -/
abbrev Fs := List (Path × FsEntry)

def Fs.lookup : Fs → Path → Option FsEntry
  | [], _ => none
  | (q, e) :: rest, p => if q = p then some e else Fs.lookup rest p

def Fs.insert (fs : Fs) (p : Path) (e : FsEntry) : Fs := (p, e) :: fs

/-- `fs.unlink` / `fs.rmdir`: drop the entry at exactly `p`. -/
def Fs.removeOne (fs : Fs) (p : Path) : Fs :=
  fs.filter (fun kv => decide (kv.1 ≠ p))

/-- `fs.rm(p, { recursive: true, force: true })`: drop `p` and everything
below it. -/
def Fs.removeAll (fs : Fs) (p : Path) : Fs :=
  fs.filter (fun kv => !under p kv.1)

/-- `fs.rename(oldP, newP)`: move the subtree at `oldP` to `newP`. -/
def Fs.rename (fs : Fs) (oldP newP : Path) : Fs :=
  (fs.filterMap (fun kv =>
    if under oldP kv.1 then some (newP ++ kv.1.drop oldP.length, kv.2) else none)) ++
    fs.filter (fun kv => !under oldP kv.1)

/-- `fs.cp(src, tgt, { recursive: true })`: duplicate the subtree at `src`
at `tgt` (new bindings shadow older ones). -/
def Fs.copySubtree (fs : Fs) (src tgt : Path) : Fs :=
  (fs.filterMap (fun kv =>
    if under src kv.1 then some (tgt ++ kv.1.drop src.length, kv.2) else none)) ++ fs

/-- The ancestors of a path, shortest first, ending with the path itself. -/
def initsOf : Path → List Path
  | [] => [[]]
  | x :: xs => [] :: (initsOf xs).map (fun q => x :: q)

theorem initsOf_shorter {q d : Path} (h : q ∈ initsOf d) : q.length ≤ d.length := by
  induction d generalizing q with
  | nil => simp [initsOf] at h; simp [h]
  | cons x xs ih =>
    simp only [initsOf, List.mem_cons, List.mem_map] at h
    rcases h with rfl | ⟨q', hq', rfl⟩
    · simp
    · simpa using ih hq'

/-- `fs.mkdir(dir, { recursive: true })`: create a directory entry at every
missing ancestor of `dir` and at `dir` itself. -/
def Fs.mkdirp (fs : Fs) (dir : Path) : Fs :=
  (initsOf dir).foldl
    (fun acc q => if (Fs.lookup acc q).isSome then acc else Fs.insert acc q .dir) fs

/-- `fs.existsSync`, following symlinks at the final component, with fuel
bounding the chain length. -/
def Fs.existsFuel (fs : Fs) : Nat → Path → Bool
  | 0, _ => false
  | fuel + 1, p =>
    match Fs.lookup fs p with
    | none => false
    | some (.symlink l) => Fs.existsFuel fs fuel (resolveRel p.dropLast l)
    | some _ => true

def Fs.existsSync (fs : Fs) (p : Path) : Bool :=
  Fs.existsFuel fs (fs.length + 1) p

/-- Read the entry at `p` after following symlinks (the view `stat`,
`readFileSync` and `copyFile` have of a path). -/
def Fs.readFollow (fs : Fs) : Nat → Path → Option FsEntry
  | 0, _ => none
  | fuel + 1, p =>
    match Fs.lookup fs p with
    | some (.symlink l) => Fs.readFollow fs fuel (resolveRel p.dropLast l)
    | other => other

def Fs.statEntry (fs : Fs) (p : Path) : Option FsEntry :=
  Fs.readFollow fs (fs.length + 1) p

/-! ### Basic filesystem lemmas -/

theorem Fs.lookup_insert_self (fs : Fs) (p : Path) (e : FsEntry) :
    Fs.lookup (Fs.insert fs p e) p = some e := by
  simp [Fs.insert, Fs.lookup]

theorem Fs.lookup_insert_ne (fs : Fs) (p q : Path) (e : FsEntry) (h : q ≠ p) :
    Fs.lookup (Fs.insert fs q e) p = Fs.lookup fs p := by
  simp [Fs.insert, Fs.lookup, h]

theorem Fs.lookup_mkdirp_of_some (fs : Fs) (dir p : Path) (e : FsEntry)
    (h : Fs.lookup fs p = some e) :
    Fs.lookup (Fs.mkdirp fs dir) p = some e := by
  unfold Fs.mkdirp
  generalize initsOf dir = qs
  induction qs generalizing fs with
  | nil => simpa
  | cons q rest ih =>
    simp only [List.foldl_cons]
    by_cases hq : (Fs.lookup fs q).isSome
    · simp only [hq, if_true]
      exact ih fs h
    · simp only [hq, Bool.false_eq_true, if_false]
      apply ih
      have hne : q ≠ p := by
        intro hqp; subst hqp; simp [h] at hq
      rw [Fs.lookup_insert_ne _ _ _ _ hne]
      exact h

theorem Fs.existsFuel_mono (fs : Fs) {n m : Nat} (hnm : n ≤ m) (p : Path)
    (h : Fs.existsFuel fs n p = true) : Fs.existsFuel fs m p = true := by
  induction n generalizing p m with
  | zero => simp [Fs.existsFuel] at h
  | succ k ih =>
    obtain ⟨m', rfl⟩ : ∃ m', m = m' + 1 := ⟨m - 1, by omega⟩
    simp only [Fs.existsFuel] at h ⊢
    cases he : Fs.lookup fs p with
    | none => simp [he] at h
    | some e =>
      cases e with
      | symlink l =>
        simp only [he] at h ⊢
        exact ih (by omega) _ h
      | file c => simp [he]
      | jsonFile v => simp [he]
      | dir => simp [he]

/-- A path bound to a non-symlink entry exists. -/
theorem Fs.existsSync_of_lookup_nonlink (fs : Fs) (p : Path) (e : FsEntry)
    (h : Fs.lookup fs p = some e) (hns : e.isSymbolicLink = false) :
    Fs.existsSync fs p = true := by
  cases e <;> simp [FsEntry.isSymbolicLink] at hns <;>
    simp [Fs.existsSync, Fs.existsFuel, h]

theorem Fs.existsSync_lookup_none (fs : Fs) (p : Path)
    (h : Fs.lookup fs p = none) : Fs.existsSync fs p = false := by
  simp [Fs.existsSync, Fs.existsFuel, h]

/-- A symlink whose one-step resolution does not exist does not exist
itself (`existsSync` follows the link). -/
theorem Fs.existsSync_symlink_broken (fs : Fs) (p : Path) (l : List String)
    (h : Fs.lookup fs p = some (.symlink l))
    (hb : Fs.existsSync fs (resolveRel p.dropLast l) = false) :
    Fs.existsSync fs p = false := by
  by_contra hne
  rw [Bool.not_eq_false] at hne
  unfold Fs.existsSync Fs.existsFuel at hne
  rw [h] at hne
  have := Fs.existsFuel_mono fs (Nat.le_succ fs.length) _ hne
  rw [Fs.existsSync] at hb
  rw [hb] at this
  exact Bool.false_ne_true this

/-! ## Data model (src/lib/layout.ts) -/

inductive ToolName where
  | claude : ToolName
  | cursor : ToolName
deriving DecidableEq, Repr

inductive ComponentKind where
  | agents : ComponentKind
  | skills : ComponentKind
  | commands : ComponentKind
  | files : ComponentKind
deriving DecidableEq, Repr

inductive InstallMode where
  | copy : InstallMode
  | symlink : InstallMode
deriving DecidableEq, Repr

inductive ScopeName where
  | global : ScopeName
  | «local» : ScopeName
  | path : ScopeName
deriving DecidableEq, Repr

inductive Severity where
  | error : Severity
  | warning : Severity
deriving DecidableEq, Repr

structure Issue where
  code : String
  severity : Severity
  message : String
  path : Option Path := none
deriving DecidableEq, Repr

structure RuntimeTarget where
  tool : ToolName
  path : Path
  mode : InstallMode
deriving DecidableEq, Repr

structure RuntimeComponentEntry where
  name : String
  canonicalPath : Path
  sourcePath : Path
  targets : List RuntimeTarget
deriving DecidableEq, Repr

/-- A file-group entry; its `mode` is the literal `"copy"` in the source
and is therefore not carried as data. -/
structure RuntimeFileGroupEntry where
  name : String
  sourcePath : Path
  targetPath : Path
deriving DecidableEq, Repr

inductive SourceKind where
  | git : SourceKind
  | «local» : SourceKind
deriving DecidableEq, Repr

structure SourceInfo where
  input : String
  type : SourceKind
  repo : Option String
  ref : Option String
  commit : Option String
  resolvedPath : Path
deriving DecidableEq, Repr

structure Selection where
  agents : List String
  skills : List String
  commands : List String
  files : List String
deriving DecidableEq, Repr

structure Components where
  agents : List RuntimeComponentEntry
  skills : List RuntimeComponentEntry
  commands : List RuntimeComponentEntry
  files : List RuntimeFileGroupEntry
deriving DecidableEq, Repr

structure RuntimeManifest where
  schemaVersion : Int
  installedAt : String
  baseDir : Path
  canonicalRoot : Path
  scope : ScopeName
  mode : InstallMode
  tools : List ToolName
  source : SourceInfo
  selection : Selection
  reservedIgnored : List String
  components : Components
deriving DecidableEq, Repr

def toolStr : ToolName → String
  | .claude => "claude"
  | .cursor => "cursor"

def kindStr : ComponentKind → String
  | .agents => "agents"
  | .skills => "skills"
  | .commands => "commands"
  | .files => "files"

def modeStr : InstallMode → String
  | .copy => "copy"
  | .symlink => "symlink"

def scopeStr : ScopeName → String
  | .global => "global"
  | .«local» => "local"
  | .path => "path"

def sourceKindStr : SourceKind → String
  | .git => "git"
  | .«local» => "local"

/-- Render a path the way the program prints it. -/
def pathStr (p : Path) : String := String.intercalate "/" p

/-! ## Layout constants and helpers (src/lib/layout.ts) -/

def RESERVED_DIRECTORIES : List String :=
  ["agents", "skills", "commands", "rules", "settings", "src", "lib", "dist",
   "build", "coverage", "node_modules", "test", "tests", "__tests__", "docs",
   "examples", "config", "tmp", "temp"]

def IGNORED_RESERVED_DIRECTORIES : List String :=
  ["rules", "settings", "src", "lib", "dist", "build", "coverage",
   "node_modules", "test", "tests", "__tests__", "docs", "examples", "config",
   "tmp", "temp"]

def IGNORED_HIDDEN_FILE_GROUP_DIRECTORIES : List String :=
  [".git", ".github", ".cursor", ".claude", ".agents", ".vscode"]

def RUNTIME_MANIFEST_NAME : String := "install-state.json"

def DEFAULT_TOOL_SUPPORT : ComponentKind → List ToolName
  | .agents => [.claude, .cursor]
  | .skills => [.claude, .cursor]
  | .commands => [.claude, .cursor]
  | .files => []

/-- Split a character list at every occurrence of `c` (the character-level
body of `String.split`). -/
def splitOnChar (c : Char) : List Char → List (List Char)
  | [] => [[]]
  | x :: xs =>
    let rest := splitOnChar c xs
    if x = c then [] :: rest
    else
      match rest with
      | h :: t => (x :: h) :: t
      | [] => [[x]]

/-- `String.prototype.trim`, at the character level. -/
def trimString (s : String) : String :=
  String.mk
    (((s.data.dropWhile Char.isWhitespace).reverse.dropWhile
      Char.isWhitespace).reverse)

def parseCsv (input : Option String) : List String :=
  match input with
  | none => []
  | some s =>
    (((splitOnChar ',' s.data).map String.mk).map trimString).filter
      (fun e => e.length > 0)

/-- `resolveBaseDir(scope, pathArg, cwd)`; `homedir` and `cwd` are passed in
as the environment. -/
def resolveBaseDir (homedir cwd : Path) (scope : ScopeName)
    (pathArg : Option Path) : Except String Path :=
  match scope with
  | .global => .ok homedir
  | .path =>
    match pathArg with
    | none => .error "Missing --path value for path scope"
    | some p => .ok p
  | .«local» => .ok cwd

def getCanonicalRoot (homedir : Path) (baseDir : Path) (scope : ScopeName) : Path :=
  match scope with
  | .global => homedir ++ [".agents"]
  | _ => baseDir ++ [".agents"]

def getRuntimeManifestPath (canonicalRoot : Path) : Path :=
  canonicalRoot ++ [RUNTIME_MANIFEST_NAME]

def getToolRootDir (baseDir : Path) (tool : ToolName) : Path :=
  baseDir ++ [if tool = .claude then ".claude" else ".cursor"]

def getToolComponentDir (baseDir : Path) (tool : ToolName)
    (component : ComponentKind) : Path :=
  getToolRootDir baseDir tool ++ [kindStr component]

def resolveFileGroupTarget (groupName : String) : String :=
  if strStartsWith groupName "." then groupName else "." ++ groupName

/-! ## Manifest JSON codec

`writeRuntimeManifest` serialises with `JSON.stringify`; paths are stored
as strings in the real file and as JSON arrays of segments here (the
injective value-level image of a path). -/

def encodePath (p : Path) : Jval := .arr (p.map .str)

def decodePath (j : Jval) : Option Path :=
  match j with
  | .arr items => items.mapM (fun i => match i with | .str s => some s | _ => none)
  | _ => none

def decodeStr (j : Jval) : Option String :=
  match j with | .str s => some s | _ => none

def decodeMode (j : Jval) : Option InstallMode :=
  match j with
  | .str "copy" => some .copy
  | .str "symlink" => some .symlink
  | _ => none

def decodeTool (j : Jval) : Option ToolName :=
  match j with
  | .str "claude" => some .claude
  | .str "cursor" => some .cursor
  | _ => none

def decodeScope (j : Jval) : Option ScopeName :=
  match j with
  | .str "global" => some .global
  | .str "local" => some .«local»
  | .str "path" => some .path
  | _ => none

def decodeSourceKind (j : Jval) : Option SourceKind :=
  match j with
  | .str "git" => some .git
  | .str "local" => some .«local»
  | _ => none

def encodeTarget (t : RuntimeTarget) : Jval :=
  .obj [("tool", .str (toolStr t.tool)), ("path", encodePath t.path),
        ("mode", .str (modeStr t.mode))]

def decodeTarget (j : Jval) : Option RuntimeTarget := do
  let tool ← (j.get "tool").bind decodeTool
  let path ← (j.get "path").bind decodePath
  let mode ← (j.get "mode").bind decodeMode
  pure { tool := tool, path := path, mode := mode }

def encodeComponentEntry (e : RuntimeComponentEntry) : Jval :=
  .obj [("name", .str e.name), ("canonicalPath", encodePath e.canonicalPath),
        ("sourcePath", encodePath e.sourcePath),
        ("targets", .arr (e.targets.map encodeTarget))]

def decodeComponentEntry (j : Jval) : Option RuntimeComponentEntry := do
  let name ← (j.get "name").bind decodeStr
  let canonicalPath ← (j.get "canonicalPath").bind decodePath
  let sourcePath ← (j.get "sourcePath").bind decodePath
  let targets ← match j.get "targets" with
    | some (.arr items) => items.mapM decodeTarget
    | _ => none
  pure { name := name, canonicalPath := canonicalPath,
         sourcePath := sourcePath, targets := targets }

def encodeFileGroupEntry (e : RuntimeFileGroupEntry) : Jval :=
  .obj [("name", .str e.name), ("sourcePath", encodePath e.sourcePath),
        ("targetPath", encodePath e.targetPath), ("mode", .str "copy")]

def decodeFileGroupEntry (j : Jval) : Option RuntimeFileGroupEntry := do
  let name ← (j.get "name").bind decodeStr
  let sourcePath ← (j.get "sourcePath").bind decodePath
  let targetPath ← (j.get "targetPath").bind decodePath
  pure { name := name, sourcePath := sourcePath, targetPath := targetPath }

/-- `JSON.stringify` drops `undefined` object properties: an absent optional
field is simply omitted. -/
def optField (k : String) : Option String → List (String × Jval)
  | some s => [(k, .str s)]
  | none => []

def encodeSourceInfo (s : SourceInfo) : Jval :=
  .obj ([("input", .str s.input), ("type", .str (sourceKindStr s.type))] ++
    optField "repo" s.repo ++ optField "ref" s.ref ++
    optField "commit" s.commit ++ [("resolvedPath", encodePath s.resolvedPath)])

def decodeOptStr (j : Jval) (k : String) : Option (Option String) :=
  match j.get k with
  | none => some none
  | some (.str s) => some (some s)
  | some _ => none

def decodeSourceInfo (j : Jval) : Option SourceInfo := do
  let input ← (j.get "input").bind decodeStr
  let type ← (j.get "type").bind decodeSourceKind
  let repo ← decodeOptStr j "repo"
  let ref ← decodeOptStr j "ref"
  let commit ← decodeOptStr j "commit"
  let resolvedPath ← (j.get "resolvedPath").bind decodePath
  pure { input := input, type := type, repo := repo, ref := ref,
         commit := commit, resolvedPath := resolvedPath }

def encodeStrList (l : List String) : Jval := .arr (l.map .str)

def decodeStrList (j : Jval) : Option (List String) :=
  match j with
  | .arr items => items.mapM decodeStr
  | _ => none

def encodeSelection (s : Selection) : Jval :=
  .obj [("agents", encodeStrList s.agents), ("skills", encodeStrList s.skills),
        ("commands", encodeStrList s.commands), ("files", encodeStrList s.files)]

def decodeSelection (j : Jval) : Option Selection := do
  let agents ← (j.get "agents").bind decodeStrList
  let skills ← (j.get "skills").bind decodeStrList
  let commands ← (j.get "commands").bind decodeStrList
  let files ← (j.get "files").bind decodeStrList
  pure { agents := agents, skills := skills, commands := commands,
         files := files }

def encodeComponents (c : Components) : Jval :=
  .obj [("agents", .arr (c.agents.map encodeComponentEntry)),
        ("skills", .arr (c.skills.map encodeComponentEntry)),
        ("commands", .arr (c.commands.map encodeComponentEntry)),
        ("files", .arr (c.files.map encodeFileGroupEntry))]

def decodeEntryList (j : Jval) : Option (List RuntimeComponentEntry) :=
  match j with
  | .arr items => items.mapM decodeComponentEntry
  | _ => none

def decodeComponents (j : Jval) : Option Components := do
  let agents ← (j.get "agents").bind decodeEntryList
  let skills ← (j.get "skills").bind decodeEntryList
  let commands ← (j.get "commands").bind decodeEntryList
  let files ← match j.get "files" with
    | some (.arr items) => items.mapM decodeFileGroupEntry
    | _ => none
  pure { agents := agents, skills := skills, commands := commands,
         files := files }

def encodeManifest (m : RuntimeManifest) : Jval :=
  .obj [("schemaVersion", .num m.schemaVersion),
        ("installedAt", .str m.installedAt),
        ("baseDir", encodePath m.baseDir),
        ("canonicalRoot", encodePath m.canonicalRoot),
        ("scope", .str (scopeStr m.scope)),
        ("mode", .str (modeStr m.mode)),
        ("tools", .arr (m.tools.map (fun t => .str (toolStr t)))),
        ("source", encodeSourceInfo m.source),
        ("selection", encodeSelection m.selection),
        ("reservedIgnored", encodeStrList m.reservedIgnored),
        ("components", encodeComponents m.components)]

def decodeManifest (j : Jval) : Option RuntimeManifest := do
  let schemaVersion ← match j.get "schemaVersion" with
    | some (.num n) => some n
    | _ => none
  let installedAt ← (j.get "installedAt").bind decodeStr
  let baseDir ← (j.get "baseDir").bind decodePath
  let canonicalRoot ← (j.get "canonicalRoot").bind decodePath
  let scope ← (j.get "scope").bind decodeScope
  let mode ← (j.get "mode").bind decodeMode
  let tools ← match j.get "tools" with
    | some (.arr items) => items.mapM decodeTool
    | _ => none
  let source ← (j.get "source").bind decodeSourceInfo
  let selection ← (j.get "selection").bind decodeSelection
  let reservedIgnored ← (j.get "reservedIgnored").bind decodeStrList
  let components ← (j.get "components").bind decodeComponents
  pure { schemaVersion := schemaVersion, installedAt := installedAt,
         baseDir := baseDir, canonicalRoot := canonicalRoot, scope := scope,
         mode := mode, tools := tools, source := source,
         selection := selection, reservedIgnored := reservedIgnored,
         components := components }

/-! ## Runtime manifest store (src/lib/layout.ts lines 339-379) -/

/-- The shape validation `readRuntimeManifest` performs on the parsed JSON:
it must be an object with a truthy `components` whose `agents`, `skills`,
`commands` and `files` are each `Array.isArray`. -/
def manifestShapeOk (j : Jval) : Bool :=
  match j.get "components" with
  | none => false
  | some comps =>
    ((comps.get "agents").elim false Jval.isArr) &&
    ((comps.get "skills").elim false Jval.isArr) &&
    ((comps.get "commands").elim false Jval.isArr) &&
    ((comps.get "files").elim false Jval.isArr)

/-- `writeRuntimeManifest`: `mkdirSync(canonicalRoot, { recursive: true })`
then overwrite the manifest file with the serialised manifest. -/
def writeRuntimeManifest (fs : Fs) (canonicalRoot : Path)
    (m : RuntimeManifest) : Fs :=
  Fs.insert (Fs.mkdirp fs canonicalRoot) (getRuntimeManifestPath canonicalRoot)
    (.jsonFile (encodeManifest m))

/-- `readRuntimeManifest`: `null` when the file is absent, unreadable or
unparseable, or when the shape validation fails; otherwise the parsed
manifest (the TS cast `parsed as RuntimeManifest` is re-typed here as the
decoder). A `.file` entry stands for bytes that do not parse as JSON. -/
def readRuntimeManifest (fs : Fs) (canonicalRoot : Path) :
    Option RuntimeManifest :=
  let runtimePath := getRuntimeManifestPath canonicalRoot
  if Fs.existsSync fs runtimePath then
    match Fs.statEntry fs runtimePath with
    | some (.jsonFile j) =>
      if manifestShapeOk j then decodeManifest j else none
    | _ => none
  else none

/-! ### Codec roundtrip lemmas -/

theorem mapM_loop_of_inverse {α β : Type} (enc : α → β) (dec : β → Option α)
    (h : ∀ x, dec (enc x) = some x) (l : List α) (acc : List α) :
    List.mapM.loop dec (l.map enc) acc = some (acc.reverse ++ l) := by
  induction l generalizing acc with
  | nil => simp [List.mapM.loop]
  | cons x xs ih =>
    simp only [List.map_cons, List.mapM.loop, h, Option.bind_eq_bind,
      Option.some_bind, ih, List.reverse_cons, List.append_assoc,
      List.singleton_append]

theorem mapM_map_of_inverse {α β : Type} (enc : α → β) (dec : β → Option α)
    (h : ∀ x, dec (enc x) = some x) (l : List α) :
    (l.map enc).mapM dec = some l := by
  simpa [List.mapM] using mapM_loop_of_inverse enc dec h l []

theorem decodePath_encodePath (p : Path) : decodePath (encodePath p) = some p := by
  simpa [encodePath, decodePath] using
    mapM_map_of_inverse Jval.str
      (fun i => match i with | .str s => some s | _ => none) (fun _ => rfl) p

theorem decodeMode_modeStr (m : InstallMode) :
    decodeMode (.str (modeStr m)) = some m := by
  cases m <;> rfl

theorem decodeTool_toolStr (t : ToolName) :
    decodeTool (.str (toolStr t)) = some t := by
  cases t <;> rfl

theorem decodeScope_scopeStr (s : ScopeName) :
    decodeScope (.str (scopeStr s)) = some s := by
  cases s <;> rfl

theorem decodeSourceKind_str (s : SourceKind) :
    decodeSourceKind (.str (sourceKindStr s)) = some s := by
  cases s <;> rfl

theorem decodeStrList_encodeStrList (l : List String) :
    decodeStrList (encodeStrList l) = some l := by
  simpa [encodeStrList, decodeStrList] using
    mapM_map_of_inverse Jval.str decodeStr (fun _ => rfl) l

theorem decodeTarget_encodeTarget (t : RuntimeTarget) :
    decodeTarget (encodeTarget t) = some t := by
  cases t with
  | mk tool path mode =>
    simp [encodeTarget, decodeTarget, Jval.get, List.find?,
      decodePath_encodePath, decodeMode_modeStr, decodeTool_toolStr]

theorem decodeComponentEntry_encode (e : RuntimeComponentEntry) :
    decodeComponentEntry (encodeComponentEntry e) = some e := by
  cases e with
  | mk name canonicalPath sourcePath targets =>
    simp [encodeComponentEntry, decodeComponentEntry, Jval.get, List.find?,
      decodePath_encodePath, decodeStr,
      mapM_loop_of_inverse encodeTarget decodeTarget decodeTarget_encodeTarget]

theorem decodeFileGroupEntry_encode (e : RuntimeFileGroupEntry) :
    decodeFileGroupEntry (encodeFileGroupEntry e) = some e := by
  cases e with
  | mk name sourcePath targetPath =>
    simp [encodeFileGroupEntry, decodeFileGroupEntry, Jval.get, List.find?,
      decodePath_encodePath, decodeStr]

theorem decodeSourceInfo_encode (s : SourceInfo) :
    decodeSourceInfo (encodeSourceInfo s) = some s := by
  cases s with
  | mk input type repo ref commit resolvedPath =>
    cases repo <;> cases ref <;> cases commit <;>
      simp [encodeSourceInfo, decodeSourceInfo, optField, Jval.get, List.find?,
        decodeStr, decodeOptStr, decodeSourceKind_str, decodePath_encodePath]

theorem decodeSelection_encode (s : Selection) :
    decodeSelection (encodeSelection s) = some s := by
  cases s with
  | mk agents skills commands files =>
    simp [encodeSelection, decodeSelection, Jval.get, List.find?,
      decodeStrList_encodeStrList]

theorem decodeComponents_encode (c : Components) :
    decodeComponents (encodeComponents c) = some c := by
  cases c with
  | mk agents skills commands files =>
    simp [encodeComponents, decodeComponents, decodeEntryList, Jval.get,
      List.find?,
      mapM_loop_of_inverse encodeComponentEntry decodeComponentEntry
        decodeComponentEntry_encode,
      mapM_loop_of_inverse encodeFileGroupEntry decodeFileGroupEntry
        decodeFileGroupEntry_encode]

theorem decodeManifest_encodeManifest (m : RuntimeManifest) :
    decodeManifest (encodeManifest m) = some m := by
  cases m with
  | mk sv ia bd cr sc md tl src sel ri comps =>
    simp [encodeManifest, decodeManifest, Jval.get, List.find?,
      decodeStr, decodePath_encodePath, decodeScope_scopeStr,
      decodeMode_modeStr, decodeSourceInfo_encode, decodeSelection_encode,
      decodeStrList_encodeStrList, decodeComponents_encode,
      mapM_loop_of_inverse (fun t => Jval.str (toolStr t)) decodeTool
        decodeTool_toolStr]

theorem manifestShapeOk_encode (m : RuntimeManifest) :
    manifestShapeOk (encodeManifest m) = true := by
  simp [manifestShapeOk, encodeManifest, encodeComponents, Jval.get,
    List.find?, Jval.isArr]

theorem lookup_writeRuntimeManifest_self (fs : Fs) (root : Path)
    (m : RuntimeManifest) :
    Fs.lookup (writeRuntimeManifest fs root m) (getRuntimeManifestPath root) =
      some (.jsonFile (encodeManifest m)) := by
  simp [writeRuntimeManifest, Fs.lookup_insert_self]

theorem statEntry_of_lookup_nonlink (fs : Fs) (p : Path) (e : FsEntry)
    (h : Fs.lookup fs p = some e) (hns : e.isSymbolicLink = false) :
    Fs.statEntry fs p = some e := by
  cases e <;> simp [FsEntry.isSymbolicLink] at hns <;>
    simp [Fs.statEntry, Fs.readFollow, h]

/-- Claim C4: for every `RuntimeManifest` value (including one whose
component collections are empty), `writeRuntimeManifest` followed by
`readRuntimeManifest` on the same canonical root returns a value equal to
the original, in particular for all four ComponentKind collections. -/
theorem writeRuntimeManifest_readRuntimeManifest_roundtrip
    (fs : Fs) (canonicalRoot : Path) (m : RuntimeManifest) :
    readRuntimeManifest (writeRuntimeManifest fs canonicalRoot m)
      canonicalRoot = some m := by
  have hl := lookup_writeRuntimeManifest_self fs canonicalRoot m
  have hex := Fs.existsSync_of_lookup_nonlink _ _ _ hl rfl
  have hst := statEntry_of_lookup_nonlink _ _ _ hl rfl
  simp [readRuntimeManifest, hex, hst, manifestShapeOk_encode,
    decodeManifest_encodeManifest]

/-- Claim C9: `readRuntimeManifest` returns `null` rather than raising
whenever the manifest file is absent, is not parseable JSON, or fails the
shape validation (any of `components.{agents,skills,commands,files}`
missing or not list-typed); and it returns a manifest value only when the
stored JSON passes that validation, i.e. all four component collections
are lists. -/
theorem readRuntimeManifest_null_on_malformed (fs : Fs) (canonicalRoot : Path) :
    (Fs.lookup fs (getRuntimeManifestPath canonicalRoot) = none →
      readRuntimeManifest fs canonicalRoot = none) ∧
    (∀ raw, Fs.lookup fs (getRuntimeManifestPath canonicalRoot) =
        some (.file raw) →
      readRuntimeManifest fs canonicalRoot = none) ∧
    (∀ j, Fs.lookup fs (getRuntimeManifestPath canonicalRoot) =
        some (.jsonFile j) →
      manifestShapeOk j = false →
      readRuntimeManifest fs canonicalRoot = none) ∧
    (∀ m, readRuntimeManifest fs canonicalRoot = some m →
      ∃ j, Fs.statEntry fs (getRuntimeManifestPath canonicalRoot) =
          some (.jsonFile j) ∧
        manifestShapeOk j = true ∧ decodeManifest j = some m) := by
  refine ⟨?_, ?_, ?_, ?_⟩
  · intro h
    simp [readRuntimeManifest, Fs.existsSync_lookup_none fs _ h]
  · intro raw h
    have hst := statEntry_of_lookup_nonlink _ _ _ h rfl
    simp [readRuntimeManifest, hst]
  · intro j h hshape
    have hst := statEntry_of_lookup_nonlink _ _ _ h rfl
    simp [readRuntimeManifest, hst, hshape]
  · intro m h
    unfold readRuntimeManifest at h
    by_cases hex : Fs.existsSync fs (getRuntimeManifestPath canonicalRoot)
    · simp only [hex, if_true] at h
      cases hst : Fs.statEntry fs (getRuntimeManifestPath canonicalRoot) with
      | none => rw [hst] at h; simp at h
      | some e =>
        cases e with
        | jsonFile j =>
          rw [hst] at h
          by_cases hshape : manifestShapeOk j
          · exact ⟨j, rfl, hshape, by simpa [hshape] using h⟩
          · simp [Bool.not_eq_true] at hshape
            simp [hshape] at h
        | file c => rw [hst] at h; simp at h
        | dir => rw [hst] at h; simp at h
        | symlink l => rw [hst] at h; simp at h
    · simp [hex] at h

/-! ## Convention discovery (src/lib/layout.ts lines 221-281) -/

/-- Is this entry a regular file (`dirent.isFile()`)?  A symlink dirent is
neither a file nor a directory. -/
def FsEntry.isFile : FsEntry → Bool
  | .file _ => true
  | .jsonFile _ => true
  | _ => false

def FsEntry.isDirectory : FsEntry → Bool
  | .dir => true
  | _ => false

/-- The single child segment of `p` that `q` names, when `q` is an
immediate child of `p`. -/
def childOf (p q : Path) : Option String :=
  if under p q then
    match q.drop p.length with
    | [n] => some n
    | _ => none
  else none

/-- Keep the first binding per child name (fuel-structured so that the
kernel can evaluate it; the fuel never runs out since filtering shortens
the list). -/
def dedupFirstAux : Nat → List (String × FsEntry) → List (String × FsEntry)
  | _, [] => []
  | 0, l => l
  | fuel + 1, kv :: rest =>
    kv :: dedupFirstAux fuel (rest.filter (fun kv2 => decide (kv2.1 ≠ kv.1)))

/-- `fs.readdirSync(p, { withFileTypes: true })`: the immediate children
of `p`, each with its entry, first binding per name winning. -/
def Fs.readdir (fs : Fs) (p : Path) : List (String × FsEntry) :=
  let children := fs.filterMap (fun kv => (childOf p kv.1).map (fun n => (n, kv.2)))
  dedupFirstAux children.length children

/-- Sorting by `localeCompare` is modelled as an insertion sort on the
default `String` order; the claims only use membership. -/
def insertSorted (s : String) : List String → List String
  | [] => [s]
  | x :: xs => if s ≤ x then s :: x :: xs else x :: insertSorted s xs

def sortStrings : List String → List String
  | [] => []
  | x :: xs => insertSorted x (sortStrings xs)

theorem mem_insertSorted {a s : String} {l : List String} :
    a ∈ insertSorted s l ↔ a = s ∨ a ∈ l := by
  induction l with
  | nil => simp [insertSorted]
  | cons x xs ih =>
    by_cases h : s ≤ x
    · simp [insertSorted, h]
    · simp [insertSorted, h, ih]
      tauto

theorem mem_sortStrings {a : String} {l : List String} :
    a ∈ sortStrings l ↔ a ∈ l := by
  induction l with
  | nil => simp [sortStrings]
  | cons x xs ih => simp [sortStrings, mem_insertSorted, ih]

/-- `path.basename(name, ".md")` for a name known to end in `.md`:
drop the three extension characters. -/
def dropMdExt (n : String) : String := String.mk (n.data.take (n.data.length - 3))

def listMarkdownBasenames (fs : Fs) (dirPath : Path) : List String :=
  if Fs.existsSync fs dirPath then
    sortStrings ((Fs.readdir fs dirPath).filterMap (fun kv =>
      if kv.2.isFile && strEndsWith kv.1 ".md" then some (dropMdExt kv.1) else none))
  else []

def listSkillDirs (fs : Fs) (dirPath : Path) : List String :=
  if Fs.existsSync fs dirPath then
    sortStrings (((Fs.readdir fs dirPath).filter (fun kv =>
        kv.2.isDirectory &&
        Fs.existsSync fs (dirPath ++ [kv.1, "SKILL.md"]))).map Prod.fst)
  else []

structure DiscoveredSource where
  rootDir : Path
  agents : List String
  skills : List String
  commands : List String
  fileGroups : List String
  reservedIgnored : List String
  issues : List Issue
deriving DecidableEq, Repr

/-- `discoverSource(rootDir)`; `rootDir` is taken already resolved.
(The real function raises on a nonexistent root; no claim concerns that
case and `readdir` of a missing directory is empty here.) -/
def discoverSource (fs : Fs) (rootDir : Path) : DiscoveredSource :=
  let topLevel := (Fs.readdir fs rootDir).filter (fun kv => kv.2.isDirectory)
  let agents := listMarkdownBasenames fs (rootDir ++ ["agents"])
  let skills := listSkillDirs fs (rootDir ++ ["skills"])
  let commands := listMarkdownBasenames fs (rootDir ++ ["commands"])
  let reservedIgnored := (topLevel.map Prod.fst).filter
    (fun n => n ∈ IGNORED_RESERVED_DIRECTORIES)
  let fileGroups := ((topLevel.map Prod.fst).filter
    (fun n => n ∉ IGNORED_HIDDEN_FILE_GROUP_DIRECTORIES)).filter
    (fun n => n ∉ RESERVED_DIRECTORIES)
  { rootDir := rootDir
    agents := agents
    skills := skills
    commands := commands
    fileGroups := sortStrings fileGroups
    reservedIgnored := sortStrings reservedIgnored
    issues := [] }

/-- Claim C8 counterexample: a hidden top-level directory `.foo` (outside
the fixed ignore set) is discovered as a file group, so hidden top-level
directories are not always excluded. -/
theorem discoverSource_hidden_dir_in_fileGroups :
    (discoverSource [(["repo"], .dir), (["repo", ".foo"], .dir)]
        ["repo"]).fileGroups = [".foo"] ∧
      strStartsWith ".foo" "." = true := by
  constructor
  · rfl
  · rfl

/-- Claim C8 (amended): for every source root, a top-level directory is
excluded from the discovered `fileGroups` exactly when its name is in the
fixed hidden ignore set (`.git`, `.github`, `.cursor`, `.claude`,
`.agents`, `.vscode`) or in the reserved set; in particular every
discovered file group's name is outside the hidden ignore set, but hidden
directories outside that set are not excluded. -/
theorem discoverSource_fileGroups_not_ignored (fs : Fs) (rootDir : Path)
    (n : String) (h : n ∈ (discoverSource fs rootDir).fileGroups) :
    n ∉ IGNORED_HIDDEN_FILE_GROUP_DIRECTORIES ∧ n ∉ RESERVED_DIRECTORIES := by
  simp only [discoverSource, mem_sortStrings, List.mem_filter,
    decide_eq_true_eq] at h
  exact ⟨h.1.2, h.2⟩

/-- Claim C8 witness: the amended statement applied at a concrete source
tree holding a `docs` directory and a `prompts` directory: `prompts` is a
discovered file group and is outside both ignore sets. -/
theorem discoverSource_fileGroups_not_ignored_witness :
    "prompts" ∉ IGNORED_HIDDEN_FILE_GROUP_DIRECTORIES ∧
      "prompts" ∉ RESERVED_DIRECTORIES :=
  discoverSource_fileGroups_not_ignored
    [(["repo"], .dir), (["repo", "docs"], .dir), (["repo", "prompts"], .dir)]
    ["repo"] "prompts" (by decide)

/-! ## Install materializer (src/commands/install.ts lines 345-440) -/

inductive InstallResult where
  | installed : InstallResult
  | skipped : InstallResult
deriving DecidableEq, Repr

/-- The `sourceType: "file" | "dir"` discriminator of `installEntry`. -/
inductive SourceType where
  | file : SourceType
  | dir : SourceType
deriving DecidableEq, Repr

/-- `relativeFromBase(baseDir, targetPath)`: the relative path when it
does not escape the base, else a sanitized flattened name under
`_external/`. -/
def relativeFromBase (baseDir targetPath : Path) : List String :=
  let rel := relSegs baseDir targetPath
  match rel with
  | [] => []
  | s :: _ =>
    if strStartsWith s ".." then
      ["_external", "_" ++ String.intercalate "_" targetPath]
    else rel

/-- Append `suffix` to the last segment (`` `${rel}.backup.${now}` ``). -/
def suffixLast (suffix : String) : List String → List String
  | [] => [suffix]
  | [x] => [x ++ suffix]
  | x :: xs => x :: suffixLast suffix xs

def backupPathFor (backupRoot baseDir targetPath : Path) (now : Nat) : Path :=
  backupRoot ++
    suffixLast (".backup." ++ toString now) (relativeFromBase baseDir targetPath)

/-- `backupIfNeeded`: move an existing target under the backup root,
returning whether a backup was made. -/
def backupIfNeeded (fs : Fs) (targetPath backupRoot baseDir : Path)
    (dryRun : Bool) (now : Nat) : Bool × Fs :=
  if !(Fs.existsSync fs targetPath) then (false, fs)
  else
    let backupPath := backupPathFor backupRoot baseDir targetPath now
    if dryRun then (false, fs)
    else
      (true, Fs.rename (Fs.mkdirp fs backupPath.dropLast) targetPath backupPath)

structure InstallEntryParams where
  sourcePath : Path
  targetPath : Path
  sourceType : SourceType
  mode : InstallMode
  overwrite : Bool
  backupRoot : Path
  baseDir : Path
  dryRun : Bool
  now : Nat
deriving Repr

/-- The backup stage of `installEntry`: back the target up when it exists
and overwrite was chosen. -/
def installEntryBackup (fs : Fs) (p : InstallEntryParams) : Bool × Fs :=
  if Fs.existsSync fs p.targetPath && p.overwrite then
    backupIfNeeded fs p.targetPath p.backupRoot p.baseDir p.dryRun p.now
  else (false, fs)

/-- The `mkdir -p` and `rm` stage of `installEntry` (reached only outside
dry runs): ensure the parent directory exists, then remove any existing
target. -/
def installEntryPre (fs : Fs) (p : InstallEntryParams) : Fs :=
  let fs2 := Fs.mkdirp (installEntryBackup fs p).2 p.targetPath.dropLast
  if Fs.existsSync fs2 p.targetPath then Fs.removeAll fs2 p.targetPath
  else fs2

/-- `installEntry`: the conflict/backup/copy/symlink core of the
materializer.  The returned `Bool` records whether the `onBackup`
callback fired; filesystem failures surface as `Except.error` (caught and
counted by the callers; the partial mutations preceding a thrown error
are not modelled, and no claim depends on them). -/
def installEntry (fs : Fs) (p : InstallEntryParams) :
    Except String (InstallResult × Fs × Bool) :=
  if Fs.existsSync fs p.targetPath && !p.overwrite then
    .ok (.skipped, fs, false)
  else
    let didBackup := (installEntryBackup fs p).1
    if p.dryRun then .ok (.installed, (installEntryBackup fs p).2, didBackup)
    else
      let fs3 := installEntryPre fs p
      match p.mode with
      | .copy =>
        match p.sourceType with
        | .dir =>
          if (Fs.lookup fs3 p.sourcePath).isSome then
            .ok (.installed, Fs.copySubtree fs3 p.sourcePath p.targetPath,
              didBackup)
          else .error "ENOENT: no such file or directory"
        | .file =>
          match Fs.statEntry fs3 p.sourcePath with
          | some (.file c) =>
            .ok (.installed, Fs.insert fs3 p.targetPath (.file c), didBackup)
          | some (.jsonFile v) =>
            .ok (.installed, Fs.insert fs3 p.targetPath (.jsonFile v),
              didBackup)
          | some .dir => .error "EISDIR: illegal operation on a directory"
          | _ => .error "ENOENT: no such file or directory"
      | .symlink =>
        let linkTarget := relSegs p.targetPath.dropLast p.sourcePath
        if (Fs.lookup fs3 p.targetPath).isSome then
          .error "EEXIST: file already exists"
        else
          .ok (.installed, Fs.insert fs3 p.targetPath (.symlink linkTarget),
            didBackup)

/-- Claim C6: whenever the target path already exists and `overwrite` is
false, `installEntry` returns `skipped` and performs no filesystem write:
the filesystem is returned unchanged (so the pre-existing target's
content is unchanged byte for byte) and no backup entry is created. -/
theorem installEntry_existing_target_skipped (fs : Fs)
    (p : InstallEntryParams) (hex : Fs.existsSync fs p.targetPath = true)
    (hov : p.overwrite = false) :
    installEntry fs p = .ok (.skipped, fs, false) := by
  simp [installEntry, hex, hov]

/-- Claim C6 witness: at a concrete filesystem holding a file at the
target path, with `overwrite := false`, the call is skipped and the
filesystem (including the old content) is returned untouched. -/
theorem installEntry_existing_target_skipped_witness :
    installEntry [((["home", "proj", ".claude", "agents", "a.md"] : Path),
        FsEntry.file "old content")]
      { sourcePath := ["home", "proj", ".agents", "agents", "a.md"]
        targetPath := ["home", "proj", ".claude", "agents", "a.md"]
        sourceType := .file
        mode := .copy
        overwrite := false
        backupRoot := ["home", "proj", ".agents", "backups", "run1"]
        baseDir := ["home", "proj"]
        dryRun := false
        now := 1700000000000 } =
      .ok (.skipped,
        [((["home", "proj", ".claude", "agents", "a.md"] : Path),
          FsEntry.file "old content")], false) :=
  installEntry_existing_target_skipped _ _ (by decide) rfl

/-! ### Frame lemmas: which paths each filesystem operation can touch -/

theorem under_extend_false {a q : Path} (b : Path) (h : under a q = false) :
    under (a ++ b) q = false := by
  by_contra hne
  rw [Bool.not_eq_false] at hne
  obtain ⟨t, rfl⟩ := under_iff.mp hne
  rw [List.append_assoc] at h
  rw [under_append] at h
  exact Bool.true_eq_false.mp h

theorem under_ne {a q : Path} (h : under a q = false) : a ≠ q := by
  rintro rfl
  rw [under_refl] at h
  exact Bool.true_eq_false.mp h

theorem Fs.lookup_append (a b : Fs) (p : Path) :
    Fs.lookup (a ++ b) p = (Fs.lookup a p).or (Fs.lookup b p) := by
  induction a with
  | nil => simp [Fs.lookup]
  | cons kv rest ih =>
    obtain ⟨q, e⟩ := kv
    by_cases h : q = p <;> simp [Fs.lookup, h, ih]

theorem Fs.lookup_filter (pred : Path × FsEntry → Bool) (fs : Fs) (p : Path)
    (h : ∀ e, pred (p, e) = true) :
    Fs.lookup (fs.filter pred) p = Fs.lookup fs p := by
  induction fs with
  | nil => simp
  | cons kv rest ih =>
    obtain ⟨q, e⟩ := kv
    by_cases hq : q = p
    · subst hq
      simp [Fs.lookup, h e, ih]
    · by_cases hp : pred (q, e) <;> simp [Fs.lookup, hq, hp, ih]

theorem Fs.lookup_filter_none (pred : Path × FsEntry → Bool) (fs : Fs)
    (p : Path) (h : ∀ e, pred (p, e) = false) :
    Fs.lookup (fs.filter pred) p = none := by
  induction fs with
  | nil => simp [Fs.lookup]
  | cons kv rest ih =>
    obtain ⟨q, e⟩ := kv
    by_cases hq : q = p
    · subst hq
      simp [Fs.lookup, h e, ih]
    · by_cases hp : pred (q, e) <;> simp [Fs.lookup, hq, hp, ih]

theorem Fs.lookup_all_under_none (l : Fs) (root p : Path)
    (hall : ∀ kv ∈ l, under root kv.1 = true) (h : under root p = false) :
    Fs.lookup l p = none := by
  induction l with
  | nil => rfl
  | cons kv rest ih =>
    obtain ⟨q, e⟩ := kv
    have hq : under root q = true := hall (q, e) (by simp)
    have hne : q ≠ p := by
      rintro rfl
      rw [hq] at h
      exact Bool.true_eq_false.mp h
    simp only [Fs.lookup, if_neg hne]
    exact ih (fun kv hkv => hall kv (by simp [hkv]))

theorem renameMapped_under (fs : Fs) (oldP newP : Path) :
    ∀ kv ∈ fs.filterMap (fun kv =>
      if under oldP kv.1 then some (newP ++ kv.1.drop oldP.length, kv.2)
      else none), under newP kv.1 = true := by
  intro kv hkv
  simp only [List.mem_filterMap] at hkv
  obtain ⟨⟨q, e⟩, _, hq⟩ := hkv
  by_cases hu : under oldP q
  · simp only [hu, if_true, Option.some_inj] at hq
    subst hq
    exact under_append _ _
  · simp [hu] at hq

theorem Fs.lookup_rename_other (fs : Fs) (oldP newP p : Path)
    (h1 : under oldP p = false) (h2 : under newP p = false) :
    Fs.lookup (Fs.rename fs oldP newP) p = Fs.lookup fs p := by
  unfold Fs.rename
  rw [Fs.lookup_append]
  rw [Fs.lookup_all_under_none _ newP p (renameMapped_under fs oldP newP) h2]
  rw [Option.none_or]
  exact Fs.lookup_filter _ _ _ (fun e => by simp [h1])

theorem Fs.lookup_rename_inside_none (fs : Fs) (oldP newP p : Path)
    (h1 : under oldP p = true) (h2 : under newP p = false) :
    Fs.lookup (Fs.rename fs oldP newP) p = none := by
  unfold Fs.rename
  rw [Fs.lookup_append]
  rw [Fs.lookup_all_under_none _ newP p (renameMapped_under fs oldP newP) h2]
  rw [Option.none_or]
  exact Fs.lookup_filter_none _ _ _ (fun e => by simp [h1])

theorem Fs.lookup_removeAll_other (fs : Fs) (t p : Path)
    (h : under t p = false) :
    Fs.lookup (Fs.removeAll fs t) p = Fs.lookup fs p := by
  unfold Fs.removeAll
  exact Fs.lookup_filter _ _ _ (fun e => by simp [h])

theorem Fs.lookup_removeAll_inside (fs : Fs) (t p : Path)
    (h : under t p = true) :
    Fs.lookup (Fs.removeAll fs t) p = none := by
  unfold Fs.removeAll
  exact Fs.lookup_filter_none _ _ _ (fun e => by simp [h])

theorem copyMapped_under (fs : Fs) (src tgt : Path) :
    ∀ kv ∈ fs.filterMap (fun kv =>
      if under src kv.1 then some (tgt ++ kv.1.drop src.length, kv.2)
      else none), under tgt kv.1 = true := by
  intro kv hkv
  simp only [List.mem_filterMap] at hkv
  obtain ⟨⟨q, e⟩, _, hq⟩ := hkv
  by_cases hu : under src q
  · simp only [hu, if_true, Option.some_inj] at hq
    subst hq
    exact under_append _ _
  · simp [hu] at hq

theorem Fs.lookup_copySubtree_other (fs : Fs) (src tgt p : Path)
    (h : under tgt p = false) :
    Fs.lookup (Fs.copySubtree fs src tgt) p = Fs.lookup fs p := by
  unfold Fs.copySubtree
  rw [Fs.lookup_append]
  rw [Fs.lookup_all_under_none _ tgt p (copyMapped_under fs src tgt) h]
  rw [Option.none_or]

theorem Fs.lookup_copySubtree_self (fs : Fs) (src tgt : Path) (e : FsEntry)
    (h : Fs.lookup fs src = some e) :
    Fs.lookup (Fs.copySubtree fs src tgt) tgt = some e := by
  unfold Fs.copySubtree
  rw [Fs.lookup_append]
  suffices hm : Fs.lookup (fs.filterMap (fun kv =>
      if under src kv.1 then some (tgt ++ kv.1.drop src.length, kv.2)
      else none)) tgt = some e by
    simp [hm]
  induction fs with
  | nil => simp [Fs.lookup] at h
  | cons kv rest ih =>
    obtain ⟨q, e'⟩ := kv
    by_cases hq : q = src
    · subst hq
      have h' : e' = e := by simpa [Fs.lookup] using h
      subst h'
      simp [List.filterMap_cons, under_refl, List.drop_length, Fs.lookup]
    · have hlk : Fs.lookup rest src = some e := by
        simpa [Fs.lookup, hq] using h
      by_cases hu : under src q
      · obtain ⟨t, rfl⟩ := under_iff.mp hu
        have ht : t ≠ [] := by
          rintro rfl
          simp at hq
        have hne : tgt ++ (src ++ t).drop src.length ≠ tgt := by
          simp only [List.drop_left]
          intro hcontra
          exact ht (by simpa using hcontra)
        simp only [List.filterMap_cons, hu, if_true, Fs.lookup, if_neg hne]
        exact ih hlk
      · simp only [List.filterMap_cons, hu, Bool.false_eq_true, if_false]
        exact ih hlk

theorem Fs.lookup_mkdirp_longer (fs : Fs) (d p : Path)
    (h : d.length < p.length) :
    Fs.lookup (Fs.mkdirp fs d) p = Fs.lookup fs p := by
  unfold Fs.mkdirp
  have hall : ∀ q ∈ initsOf d, q ≠ p := by
    intro q hq
    have := initsOf_shorter hq
    intro hqp
    subst hqp
    omega
  generalize initsOf d = qs at hall
  induction qs generalizing fs with
  | nil => simp
  | cons q rest ih =>
    simp only [List.foldl_cons]
    have hq : q ≠ p := hall q (by simp)
    have hrest : ∀ q' ∈ rest, q' ≠ p := fun q' hq' => hall q' (by simp [hq'])
    by_cases hlk : (Fs.lookup fs q).isSome
    · simp only [hlk, if_true]
      exact ih _ hrest
    · simp only [hlk, Bool.false_eq_true, if_false]
      rw [ih _ hrest]
      exact Fs.lookup_insert_ne fs p q _ hq

/-! ### Behaviour of `installEntry` -/

/-- Helper: the skipped branch (same fact as claim C6, for reuse). -/
theorem installEntry_skipped_helper (fs : Fs) (p : InstallEntryParams)
    (hex : Fs.existsSync fs p.targetPath = true) (hov : p.overwrite = false) :
    installEntry fs p = .ok (.skipped, fs, false) := by
  simp [installEntry, hex, hov]

theorem backupIfNeeded_frame {fs : Fs} {target bR bD : Path} {dry : Bool}
    {now : Nat} {q : Path} {e : FsEntry}
    (hq : Fs.lookup fs q = some e) (ht : under target q = false)
    (hb : under bR q = false) :
    Fs.lookup (backupIfNeeded fs target bR bD dry now).2 q = some e := by
  unfold backupIfNeeded
  by_cases hex : Fs.existsSync fs target
  · by_cases hdry : dry
    · simp [hex, hdry, hq]
    · have hbp : under (backupPathFor bR bD target now) q = false := by
        unfold backupPathFor
        exact under_extend_false _ hb
      simp only [hex, hdry, Bool.not_true, Bool.false_eq_true, if_false]
      rw [Fs.lookup_rename_other _ _ _ _ ht hbp]
      exact Fs.lookup_mkdirp_of_some _ _ _ _ hq
  · simp only [Bool.not_eq_true] at hex
    simp [hex, hq]

/-- The backup stage leaves no entry at the target (it is renamed away),
when the backup destination is outside the target subtree. -/
theorem backupIfNeeded_target_gone {fs : Fs} {target bR bD : Path}
    {now : Nat} (hex : Fs.existsSync fs target = true)
    (hb : under bR target = false) :
    Fs.lookup (backupIfNeeded fs target bR bD false now).2 target = none := by
  unfold backupIfNeeded
  have hbp : under (backupPathFor bR bD target now) target = false := by
    unfold backupPathFor
    exact under_extend_false _ hb
  simp only [hex, Bool.not_true, Bool.false_eq_true, if_false]
  rw [Fs.lookup_rename_inside_none _ _ _ _ (under_refl target) hbp]

theorem installEntryBackup_frame {fs : Fs} {p : InstallEntryParams}
    {q : Path} {e : FsEntry}
    (hq : Fs.lookup fs q = some e) (ht : under p.targetPath q = false)
    (hb : under p.backupRoot q = false) :
    Fs.lookup (installEntryBackup fs p).2 q = some e := by
  unfold installEntryBackup
  by_cases hc : Fs.existsSync fs p.targetPath && p.overwrite
  · rw [if_pos hc]
    exact backupIfNeeded_frame hq ht hb
  · rw [if_neg hc]
    exact hq

/-- The backup/mkdir/rm stages do not disturb any binding outside the
target subtree and the backup subtree. -/
theorem installEntryPre_preserves {fs : Fs} {p : InstallEntryParams}
    {q : Path} {e : FsEntry}
    (hq : Fs.lookup fs q = some e) (ht : under p.targetPath q = false)
    (hb : under p.backupRoot q = false) :
    Fs.lookup (installEntryPre fs p) q = some e := by
  unfold installEntryPre
  dsimp only
  have h2 := Fs.lookup_mkdirp_of_some _ p.targetPath.dropLast _ _
    (installEntryBackup_frame hq ht hb)
  by_cases hex : Fs.existsSync
      (Fs.mkdirp (installEntryBackup fs p).2 p.targetPath.dropLast)
      p.targetPath
  · rw [if_pos hex]
    rw [Fs.lookup_removeAll_other _ _ _ ht]
    exact h2
  · rw [if_neg hex]
    exact h2

/-- Whatever `installEntry` returns without throwing, a binding outside
both the target subtree and the backup subtree is untouched. -/
theorem installEntry_ok_frame {fs : Fs} {p : InstallEntryParams}
    {r : InstallResult} {fs' : Fs} {b : Bool}
    (h : installEntry fs p = .ok (r, fs', b))
    {q : Path} {e : FsEntry} (hq : Fs.lookup fs q = some e)
    (ht : under p.targetPath q = false) (hb : under p.backupRoot q = false) :
    Fs.lookup fs' q = some e := by
  unfold installEntry at h
  by_cases hskip : Fs.existsSync fs p.targetPath && !p.overwrite
  · rw [if_pos hskip] at h
    obtain ⟨rfl, rfl, rfl⟩ : InstallResult.skipped = r ∧ fs = fs' ∧
        b = false := by simpa using h
    exact hq
  · rw [if_neg hskip] at h
    dsimp only at h
    by_cases hdry : p.dryRun
    · rw [if_pos hdry] at h
      obtain ⟨rfl, rfl, rfl⟩ : InstallResult.installed = r ∧
          (installEntryBackup fs p).2 = fs' ∧ (installEntryBackup fs p).1 = b :=
        by simpa using h
      exact installEntryBackup_frame hq ht hb
    · rw [if_neg hdry] at h
      have hfs3 := installEntryPre_preserves hq ht hb
      cases hm : p.mode with
      | copy =>
        rw [hm] at h
        cases hst : p.sourceType with
        | dir =>
          rw [hst] at h
          by_cases hsome : (Fs.lookup (installEntryPre fs p) p.sourcePath).isSome
          · rw [if_pos hsome] at h
            obtain ⟨rfl, rfl, rfl⟩ : InstallResult.installed = r ∧
                Fs.copySubtree (installEntryPre fs p) p.sourcePath
                  p.targetPath = fs' ∧
                (installEntryBackup fs p).1 = b := by simpa using h
            rw [Fs.lookup_copySubtree_other _ _ _ _ ht]
            exact hfs3
          · rw [if_neg hsome] at h
            simp at h
        | file =>
          rw [hst] at h
          cases hse : Fs.statEntry (installEntryPre fs p) p.sourcePath with
          | none => rw [hse] at h; simp at h
          | some se =>
            rw [hse] at h
            cases se with
            | file c =>
              obtain ⟨rfl, rfl, rfl⟩ : InstallResult.installed = r ∧
                  Fs.insert (installEntryPre fs p) p.targetPath (.file c) =
                    fs' ∧ (installEntryBackup fs p).1 = b := by simpa using h
              rw [Fs.lookup_insert_ne _ _ _ _ (under_ne ht)]
              exact hfs3
            | jsonFile v =>
              obtain ⟨rfl, rfl, rfl⟩ : InstallResult.installed = r ∧
                  Fs.insert (installEntryPre fs p) p.targetPath
                    (.jsonFile v) = fs' ∧ (installEntryBackup fs p).1 = b :=
                by simpa using h
              rw [Fs.lookup_insert_ne _ _ _ _ (under_ne ht)]
              exact hfs3
            | dir => simp at h
            | symlink l => simp at h
      | symlink =>
        rw [hm] at h
        by_cases hsome : (Fs.lookup (installEntryPre fs p) p.targetPath).isSome
        · rw [if_pos hsome] at h
          simp at h
        · rw [if_neg hsome] at h
          obtain ⟨rfl, rfl, rfl⟩ : InstallResult.installed = r ∧
              Fs.insert (installEntryPre fs p) p.targetPath
                (.symlink (relSegs p.targetPath.dropLast p.sourcePath)) =
                fs' ∧ (installEntryBackup fs p).1 = b := by simpa using h
          rw [Fs.lookup_insert_ne _ _ _ _ (under_ne ht)]
          exact hfs3

/-- A target may be created when the target path either has no entry at
all, or exists and may be overwritten (with the backup destination outside
the target subtree). -/
def freshOrReplace (fs : Fs) (p : InstallEntryParams) : Prop :=
  Fs.lookup fs p.targetPath = none ∨
    (p.overwrite = true ∧ Fs.existsSync fs p.targetPath = true ∧
      under p.backupRoot p.targetPath = false)

/-- After the backup and rm stages, the target path has no entry left. -/
theorem installEntryPre_target_gone {fs : Fs} {p : InstallEntryParams}
    (hfresh : freshOrReplace fs p) (hd : p.dryRun = false)
    (hne : p.targetPath ≠ []) :
    Fs.lookup (installEntryPre fs p) p.targetPath = none := by
  have hlen : p.targetPath.dropLast.length < p.targetPath.length := by
    rw [List.length_dropLast]
    have : p.targetPath.length ≠ 0 := fun h0 =>
      hne (List.eq_nil_of_length_eq_zero h0)
    omega
  have hgone2 : Fs.lookup
      (Fs.mkdirp (installEntryBackup fs p).2 p.targetPath.dropLast)
      p.targetPath = none := by
    rw [Fs.lookup_mkdirp_longer _ _ _ hlen]
    unfold installEntryBackup
    rcases hfresh with hnone | ⟨hov, hex, hb⟩
    · have hex : Fs.existsSync fs p.targetPath = false :=
        Fs.existsSync_lookup_none fs _ hnone
      simp only [hex, Bool.false_and, Bool.false_eq_true, if_false]
      exact hnone
    · simp only [hex, hov, Bool.and_self, if_true, hd]
      exact backupIfNeeded_target_gone hex hb
  unfold installEntryPre
  dsimp only
  rw [if_neg (by rw [Fs.existsSync_lookup_none _ _ hgone2]; simp)]
  exact hgone2

/-- Successful symlink-mode creation: the target becomes a symlink whose
link value is `path.relative(dirname(target), source)`. -/
theorem installEntry_symlink_ok {fs : Fs} {p : InstallEntryParams}
    (hm : p.mode = .symlink) (hd : p.dryRun = false)
    (hne : p.targetPath ≠ []) (hfresh : freshOrReplace fs p) :
    ∃ fs' b, installEntry fs p = .ok (.installed, fs', b) ∧
      Fs.lookup fs' p.targetPath =
        some (.symlink (relSegs p.targetPath.dropLast p.sourcePath)) := by
  have hskip : (Fs.existsSync fs p.targetPath && !p.overwrite) = false := by
    rcases hfresh with hnone | ⟨hov, _, _⟩
    · simp [Fs.existsSync_lookup_none fs _ hnone]
    · simp [hov]
  have hgone := installEntryPre_target_gone hfresh hd hne
  unfold installEntry
  rw [hskip]
  simp only [Bool.false_eq_true, if_false, hd, hm]
  rw [if_neg (by rw [hgone]; simp)]
  exact ⟨_, _, rfl, Fs.lookup_insert_self _ _ _⟩

/-- Successful copy-mode creation of a single file: the target receives
the source file's content. -/
theorem installEntry_copyFile_ok {fs : Fs} {p : InstallEntryParams}
    {c : String}
    (hm : p.mode = .copy) (hst : p.sourceType = .file) (hd : p.dryRun = false)
    (hne : p.targetPath ≠ []) (hfresh : freshOrReplace fs p)
    (hsrc : Fs.lookup fs p.sourcePath = some (.file c))
    (hsT : under p.targetPath p.sourcePath = false)
    (hsB : under p.backupRoot p.sourcePath = false) :
    ∃ fs' b, installEntry fs p = .ok (.installed, fs', b) ∧
      Fs.lookup fs' p.targetPath = some (.file c) := by
  have hskip : (Fs.existsSync fs p.targetPath && !p.overwrite) = false := by
    rcases hfresh with hnone | ⟨hov, _, _⟩
    · simp [Fs.existsSync_lookup_none fs _ hnone]
    · simp [hov]
  have hpre := installEntryPre_preserves (p := p) hsrc hsT hsB
  unfold installEntry
  rw [hskip]
  simp only [Bool.false_eq_true, if_false, hd, hm, hst]
  rw [statEntry_of_lookup_nonlink _ _ _ hpre rfl]
  exact ⟨_, _, rfl, Fs.lookup_insert_self _ _ _⟩

/-- Successful copy-mode creation of a directory tree: the target path
receives the source path's entry (the whole subtree is duplicated). -/
theorem installEntry_copyDir_ok {fs : Fs} {p : InstallEntryParams}
    {e0 : FsEntry}
    (hm : p.mode = .copy) (hst : p.sourceType = .dir) (hd : p.dryRun = false)
    (hne : p.targetPath ≠ []) (hfresh : freshOrReplace fs p)
    (hsrc : Fs.lookup fs p.sourcePath = some e0)
    (hsT : under p.targetPath p.sourcePath = false)
    (hsB : under p.backupRoot p.sourcePath = false) :
    ∃ fs' b, installEntry fs p = .ok (.installed, fs', b) ∧
      Fs.lookup fs' p.targetPath = some e0 := by
  have hskip : (Fs.existsSync fs p.targetPath && !p.overwrite) = false := by
    rcases hfresh with hnone | ⟨hov, _, _⟩
    · simp [Fs.existsSync_lookup_none fs _ hnone]
    · simp [hov]
  have hpre := installEntryPre_preserves (p := p) hsrc hsT hsB
  unfold installEntry
  rw [hskip]
  simp only [Bool.false_eq_true, if_false, hd, hm, hst]
  rw [if_pos (by rw [hpre]; rfl :
    (Fs.lookup (installEntryPre fs p) p.sourcePath).isSome = true)]
  exact ⟨_, _, rfl, Fs.lookup_copySubtree_self _ _ _ _ hpre⟩

/-! ## Typed-component install flow
(src/commands/install.ts lines 571-674, `installTyped`) -/

structure InstallRunCtx where
  rootDir : Path
  baseDir : Path
  canonicalRoot : Path
  backupRoot : Path
  mode : InstallMode
  overwrite : Bool
  dryRun : Bool
  tools : List ToolName
  now : Nat
deriving Repr

structure InstallTypedState where
  fs : Fs
  entries : List RuntimeComponentEntry
  installedCount : Nat
  skippedCount : Nat
  failedCount : Nat
  backupCount : Nat

/-- Skills are directories named `name`; agents and commands are files
named `name.md`. -/
def typedLeaf (kind : ComponentKind) (name : String) : String :=
  if kind = .skills then name else name ++ ".md"

def typedSourcePath (ctx : InstallRunCtx) (kind : ComponentKind)
    (name : String) : Path :=
  ctx.rootDir ++ [kindStr kind, typedLeaf kind name]

def typedCanonicalPath (ctx : InstallRunCtx) (kind : ComponentKind)
    (name : String) : Path :=
  ctx.canonicalRoot ++ [kindStr kind, typedLeaf kind name]

def typedTargetPath (ctx : InstallRunCtx) (kind : ComponentKind)
    (tool : ToolName) (name : String) : Path :=
  getToolComponentDir ctx.baseDir tool kind ++ [typedLeaf kind name]

def bumpIf (b : Bool) (n : Nat) : Nat := if b then n + 1 else n

/-- The per-tool fan-out body: skip unsupported tools, then materialize
from the canonical path in the user-chosen mode; a failure increments the
failure counter and continues. -/
def installToolTarget (ctx : InstallRunCtx) (kind : ComponentKind)
    (name : String) (canonicalPath : Path) (sourceType : SourceType)
    (acc : InstallTypedState × List RuntimeTarget) (tool : ToolName) :
    InstallTypedState × List RuntimeTarget :=
  let st := acc.1
  let targets := acc.2
  if tool ∉ DEFAULT_TOOL_SUPPORT kind then
    ({ st with skippedCount := st.skippedCount + 1 }, targets)
  else
    let targetPath := typedTargetPath ctx kind tool name
    match installEntry st.fs
      { sourcePath := canonicalPath, targetPath := targetPath,
        sourceType := sourceType, mode := ctx.mode,
        overwrite := ctx.overwrite, backupRoot := ctx.backupRoot,
        baseDir := ctx.baseDir, dryRun := ctx.dryRun, now := ctx.now } with
    | .error _ => ({ st with failedCount := st.failedCount + 1 }, targets)
    | .ok (.skipped, fs', b) =>
      ({ st with
          fs := fs'
          skippedCount := st.skippedCount + 1
          backupCount := bumpIf b st.backupCount }, targets)
    | .ok (.installed, fs', b) =>
      ({ st with
          fs := fs'
          installedCount := st.installedCount + 1
          backupCount := bumpIf b st.backupCount },
       targets ++ [{ tool := tool, path := targetPath, mode := ctx.mode }])

/-- The per-name body of `installTyped`: canonical materialization always
in copy mode; on `skipped` no fan-out and no entry; otherwise fan out to
each selected tool from the canonical path and record the entry. -/
def installTypedStep (ctx : InstallRunCtx) (kind : ComponentKind)
    (sourceType : SourceType) (st : InstallTypedState) (name : String) :
    InstallTypedState :=
  let sourcePath := typedSourcePath ctx kind name
  let canonicalPath := typedCanonicalPath ctx kind name
  match installEntry st.fs
    { sourcePath := sourcePath, targetPath := canonicalPath,
      sourceType := sourceType, mode := .copy, overwrite := ctx.overwrite,
      backupRoot := ctx.backupRoot, baseDir := ctx.baseDir,
      dryRun := ctx.dryRun, now := ctx.now } with
  | .error _ => { st with failedCount := st.failedCount + 1 }
  | .ok (.skipped, fs', b) =>
    { st with
        fs := fs'
        skippedCount := st.skippedCount + 1
        backupCount := bumpIf b st.backupCount }
  | .ok (.installed, fs', b) =>
    let st1 := { st with
        fs := fs'
        installedCount := st.installedCount + 1
        backupCount := bumpIf b st.backupCount }
    let folded := ctx.tools.foldl
      (installToolTarget ctx kind name canonicalPath sourceType) (st1, [])
    { folded.1 with
        entries := folded.1.entries ++
          [{ name := name, canonicalPath := canonicalPath,
             sourcePath := sourcePath, targets := folded.2 }] }

def installTyped (ctx : InstallRunCtx) (kind : ComponentKind)
    (names : List String) (sourceType : SourceType)
    (st : InstallTypedState) : InstallTypedState :=
  names.foldl (installTypedStep ctx kind sourceType) st

/-! ### Disjointness of the layout's subtrees -/

def toolRootSeg (tool : ToolName) : String :=
  if tool = .claude then ".claude" else ".cursor"

theorem getToolComponentDir_eq (baseDir : Path) (tool : ToolName)
    (kind : ComponentKind) :
    getToolComponentDir baseDir tool kind =
      baseDir ++ [toolRootSeg tool, kindStr kind] := by
  cases tool <;> simp [getToolComponentDir, getToolRootDir, toolRootSeg]

/-- A typed kind: one of agents, skills, commands. -/
def isTypedKind (kind : ComponentKind) : Prop :=
  kind = .agents ∨ kind = .skills ∨ kind = .commands

theorem kindStr_ne_backups {kind : ComponentKind} (h : isTypedKind kind) :
    kindStr kind ≠ "backups" := by
  rcases h with rfl | rfl | rfl <;> decide

theorem under_target_canonical_false (ctx : InstallRunCtx)
    (kind : ComponentKind) (tool : ToolName) (name name' : String)
    (hbase : ctx.canonicalRoot = ctx.baseDir ++ [".agents"]) :
    under (typedTargetPath ctx kind tool name)
      (typedCanonicalPath ctx kind name') = false := by
  unfold typedTargetPath typedCanonicalPath
  rw [getToolComponentDir_eq, hbase]
  simp only [List.append_assoc]
  rw [under_append_left]
  cases tool <;> simp [toolRootSeg, under]

theorem under_backupRoot_target_false (ctx : InstallRunCtx)
    (kind kind' : ComponentKind) (tool : ToolName) (name : String)
    (runId : String)
    (hbase : ctx.canonicalRoot = ctx.baseDir ++ [".agents"])
    (hbackup : ctx.backupRoot = ctx.canonicalRoot ++ ["backups", runId]) :
    under ctx.backupRoot (typedTargetPath ctx kind' tool name) = false := by
  unfold typedTargetPath
  rw [getToolComponentDir_eq, hbackup, hbase]
  simp only [List.append_assoc]
  rw [under_append_left]
  cases tool <;> simp [toolRootSeg, under]

theorem under_backupRoot_canonical_false (ctx : InstallRunCtx)
    (kind : ComponentKind) (name : String) (runId : String)
    (hk : isTypedKind kind)
    (hbase : ctx.canonicalRoot = ctx.baseDir ++ [".agents"])
    (hbackup : ctx.backupRoot = ctx.canonicalRoot ++ ["backups", runId]) :
    under ctx.backupRoot (typedCanonicalPath ctx kind name) = false := by
  unfold typedCanonicalPath
  rw [hbackup, hbase]
  simp only [List.append_assoc]
  rw [under_append_left]
  have hne := kindStr_ne_backups hk
  simp only [List.singleton_append, under]
  simp
  intro h
  exact absurd h.symm hne

theorem under_target_target_false (ctx : InstallRunCtx)
    (kind kind' : ComponentKind) (tool tool' : ToolName)
    (name name' : String) (hne : tool ≠ tool') :
    under (typedTargetPath ctx kind tool name)
      (typedTargetPath ctx kind' tool' name') = false := by
  unfold typedTargetPath
  rw [getToolComponentDir_eq, getToolComponentDir_eq]
  simp only [List.append_assoc]
  rw [under_append_left]
  cases tool <;> cases tool' <;> simp_all [toolRootSeg, under]

theorem under_root_of_under_extension {root ext p : Path}
    (h : under (root ++ ext) p = true) : under root p = true := by
  obtain ⟨t, rfl⟩ := under_iff.mp h
  rw [List.append_assoc]
  exact under_append _ _

/-! ### What a successful (non-dry) install leaves at the target -/

theorem installEntry_installed_symlink {fs fs' : Fs}
    {p : InstallEntryParams} {b : Bool}
    (h : installEntry fs p = .ok (.installed, fs', b))
    (hm : p.mode = .symlink) (hd : p.dryRun = false) :
    Fs.lookup fs' p.targetPath =
      some (.symlink (relSegs p.targetPath.dropLast p.sourcePath)) := by
  unfold installEntry at h
  by_cases hskip : Fs.existsSync fs p.targetPath && !p.overwrite
  · rw [if_pos hskip] at h
    simp at h
  · rw [if_neg hskip] at h
    dsimp only at h
    rw [hm] at h
    simp only [hd, Bool.false_eq_true, if_false] at h
    by_cases hsome : (Fs.lookup (installEntryPre fs p) p.targetPath).isSome
    · rw [if_pos hsome] at h
      simp at h
    · rw [if_neg hsome] at h
      simp only [Except.ok.injEq, Prod.mk.injEq] at h
      obtain ⟨-, h2, -⟩ := h
      rw [← h2]
      exact Fs.lookup_insert_self _ _ _

theorem installEntry_installed_copyFile {fs fs' : Fs}
    {p : InstallEntryParams} {b : Bool} {c0 : String}
    (h : installEntry fs p = .ok (.installed, fs', b))
    (hm : p.mode = .copy) (hst : p.sourceType = .file) (hd : p.dryRun = false)
    (hsrc : Fs.lookup fs p.sourcePath = some (.file c0))
    (hsT : under p.targetPath p.sourcePath = false)
    (hsB : under p.backupRoot p.sourcePath = false) :
    Fs.lookup fs' p.targetPath = some (.file c0) := by
  have hpre := installEntryPre_preserves (p := p) hsrc hsT hsB
  unfold installEntry at h
  by_cases hskip : Fs.existsSync fs p.targetPath && !p.overwrite
  · rw [if_pos hskip] at h
    simp at h
  · rw [if_neg hskip] at h
    dsimp only at h
    rw [hm, hst] at h
    simp only [hd, Bool.false_eq_true, if_false] at h
    rw [statEntry_of_lookup_nonlink _ _ _ hpre rfl] at h
    simp only [Except.ok.injEq, Prod.mk.injEq] at h
    obtain ⟨-, h2, -⟩ := h
    rw [← h2]
    exact Fs.lookup_insert_self _ _ _

theorem installEntry_installed_copyDir {fs fs' : Fs}
    {p : InstallEntryParams} {b : Bool} {e0 : FsEntry}
    (h : installEntry fs p = .ok (.installed, fs', b))
    (hm : p.mode = .copy) (hst : p.sourceType = .dir) (hd : p.dryRun = false)
    (hsrc : Fs.lookup fs p.sourcePath = some e0)
    (hsT : under p.targetPath p.sourcePath = false)
    (hsB : under p.backupRoot p.sourcePath = false) :
    Fs.lookup fs' p.targetPath = some e0 := by
  have hpre := installEntryPre_preserves (p := p) hsrc hsT hsB
  unfold installEntry at h
  by_cases hskip : Fs.existsSync fs p.targetPath && !p.overwrite
  · rw [if_pos hskip] at h
    simp at h
  · rw [if_neg hskip] at h
    dsimp only at h
    rw [hm, hst] at h
    simp only [hd, Bool.false_eq_true, if_false] at h
    rw [if_pos (by rw [hpre]; rfl :
      (Fs.lookup (installEntryPre fs p) p.sourcePath).isSome = true)] at h
    simp only [Except.ok.injEq, Prod.mk.injEq] at h
    obtain ⟨-, h2, -⟩ := h
    rw [← h2]
    exact Fs.lookup_copySubtree_self _ _ _ _ hpre

/-! ### The tool fan-out loop -/

/-- What holds of each recorded target after the fan-out: it belongs to a
supporting tool from the allowed list, carries the user-chosen mode and the
tool-directory path, and the filesystem holds the materialization produced
from the canonical path. -/
def TargetConc (ctx : InstallRunCtx) (kind : ComponentKind) (name : String)
    (e0 : FsEntry) (allowed : List ToolName) (fs : Fs)
    (t : RuntimeTarget) : Prop :=
  t.tool ∈ allowed ∧ t.tool ∈ DEFAULT_TOOL_SUPPORT kind ∧
  t.mode = ctx.mode ∧ t.path = typedTargetPath ctx kind t.tool name ∧
  (ctx.mode = .symlink → Fs.lookup fs t.path =
    some (.symlink (relSegs t.path.dropLast
      (typedCanonicalPath ctx kind name)))) ∧
  (ctx.mode = .copy → Fs.lookup fs t.path = some e0)

theorem installToolTarget_unsupported (ctx : InstallRunCtx)
    (kind : ComponentKind) (name : String) (cp : Path)
    (sourceType : SourceType) (acc : InstallTypedState × List RuntimeTarget)
    (tool : ToolName) (hsupp : tool ∉ DEFAULT_TOOL_SUPPORT kind) :
    installToolTarget ctx kind name cp sourceType acc tool =
      ({ acc.1 with skippedCount := acc.1.skippedCount + 1 }, acc.2) := by
  unfold installToolTarget
  rw [if_pos (by simp [hsupp])]

theorem installToolTarget_error (ctx : InstallRunCtx) (kind : ComponentKind)
    (name : String) (cp : Path) (sourceType : SourceType)
    (st : InstallTypedState) (targets : List RuntimeTarget) (tool : ToolName)
    (msg : String) (hsupp : tool ∈ DEFAULT_TOOL_SUPPORT kind)
    (hres : installEntry st.fs
      { sourcePath := cp, targetPath := typedTargetPath ctx kind tool name,
        sourceType := sourceType, mode := ctx.mode,
        overwrite := ctx.overwrite, backupRoot := ctx.backupRoot,
        baseDir := ctx.baseDir, dryRun := ctx.dryRun, now := ctx.now } =
      .error msg) :
    installToolTarget ctx kind name cp sourceType (st, targets) tool =
      ({ st with failedCount := st.failedCount + 1 }, targets) := by
  unfold installToolTarget
  rw [if_neg (by simp [hsupp])]
  dsimp only
  rw [hres]

theorem installToolTarget_skipped (ctx : InstallRunCtx)
    (kind : ComponentKind) (name : String) (cp : Path)
    (sourceType : SourceType) (st : InstallTypedState)
    (targets : List RuntimeTarget) (tool : ToolName) (fs' : Fs) (b : Bool)
    (hsupp : tool ∈ DEFAULT_TOOL_SUPPORT kind)
    (hres : installEntry st.fs
      { sourcePath := cp, targetPath := typedTargetPath ctx kind tool name,
        sourceType := sourceType, mode := ctx.mode,
        overwrite := ctx.overwrite, backupRoot := ctx.backupRoot,
        baseDir := ctx.baseDir, dryRun := ctx.dryRun, now := ctx.now } =
      .ok (.skipped, fs', b)) :
    installToolTarget ctx kind name cp sourceType (st, targets) tool =
      ({ st with
          fs := fs'
          skippedCount := st.skippedCount + 1
          backupCount := bumpIf b st.backupCount }, targets) := by
  unfold installToolTarget
  rw [if_neg (by simp [hsupp])]
  dsimp only
  rw [hres]

theorem installToolTarget_installed (ctx : InstallRunCtx)
    (kind : ComponentKind) (name : String) (cp : Path)
    (sourceType : SourceType) (st : InstallTypedState)
    (targets : List RuntimeTarget) (tool : ToolName) (fs' : Fs) (b : Bool)
    (hsupp : tool ∈ DEFAULT_TOOL_SUPPORT kind)
    (hres : installEntry st.fs
      { sourcePath := cp, targetPath := typedTargetPath ctx kind tool name,
        sourceType := sourceType, mode := ctx.mode,
        overwrite := ctx.overwrite, backupRoot := ctx.backupRoot,
        baseDir := ctx.baseDir, dryRun := ctx.dryRun, now := ctx.now } =
      .ok (.installed, fs', b)) :
    installToolTarget ctx kind name cp sourceType (st, targets) tool =
      ({ st with
          fs := fs'
          installedCount := st.installedCount + 1
          backupCount := bumpIf b st.backupCount },
        targets ++ [{ tool := tool,
                      path := typedTargetPath ctx kind tool name,
                      mode := ctx.mode }]) := by
  unfold installToolTarget
  rw [if_neg (by simp [hsupp])]
  dsimp only
  rw [hres]

theorem installToolTarget_foldl (ctx : InstallRunCtx) (kind : ComponentKind)
    (name : String) (sourceType : SourceType) (e0 : FsEntry) (runId : String)
    (allowed : List ToolName)
    (hk : isTypedKind kind) (hd : ctx.dryRun = false)
    (hbase : ctx.canonicalRoot = ctx.baseDir ++ [".agents"])
    (hbackup : ctx.backupRoot = ctx.canonicalRoot ++ ["backups", runId])
    (hstype : sourceType =
      (if kind = .skills then SourceType.dir else SourceType.file))
    (hfileE : kind ≠ .skills → ∃ c, e0 = FsEntry.file c) :
    ∀ (rem : List ToolName) (st : InstallTypedState)
      (targets : List RuntimeTarget),
      rem.Nodup → (∀ τ ∈ rem, τ ∈ allowed) →
      Fs.lookup st.fs (typedCanonicalPath ctx kind name) = some e0 →
      (∀ t ∈ targets, t.tool ∉ rem ∧
        TargetConc ctx kind name e0 allowed st.fs t) →
      Fs.lookup (rem.foldl (installToolTarget ctx kind name
          (typedCanonicalPath ctx kind name) sourceType) (st, targets)).1.fs
        (typedCanonicalPath ctx kind name) = some e0 ∧
      (rem.foldl (installToolTarget ctx kind name
          (typedCanonicalPath ctx kind name) sourceType)
        (st, targets)).1.entries = st.entries ∧
      ∀ t ∈ (rem.foldl (installToolTarget ctx kind name
          (typedCanonicalPath ctx kind name) sourceType) (st, targets)).2,
        TargetConc ctx kind name e0 allowed
          (rem.foldl (installToolTarget ctx kind name
            (typedCanonicalPath ctx kind name) sourceType)
            (st, targets)).1.fs t := by
  intro rem
  induction rem with
  | nil =>
    intro st targets _ _ hcp hinv
    exact ⟨hcp, rfl, fun t ht => (hinv t ht).2⟩
  | cons τ rest ih =>
    intro st targets hnodup hallow hcp hinv
    have hτrest : τ ∉ rest := (List.nodup_cons.mp hnodup).1
    have hnodup' : rest.Nodup := (List.nodup_cons.mp hnodup).2
    have hallow' : ∀ τ' ∈ rest, τ' ∈ allowed :=
      fun τ' hτ' => hallow τ' (by simp [hτ'])
    simp only [List.foldl_cons]
    have hframe : ∀ (q : Path), (q = typedCanonicalPath ctx kind name ∨
        ∃ τ', τ' ≠ τ ∧ q = typedTargetPath ctx kind τ' name) →
        under (typedTargetPath ctx kind τ name) q = false ∧
        under ctx.backupRoot q = false := by
      rintro q (rfl | ⟨τ', hττ', rfl⟩)
      · exact ⟨under_target_canonical_false ctx kind τ name name hbase,
          under_backupRoot_canonical_false ctx kind name runId hk hbase
            hbackup⟩
      · exact ⟨under_target_target_false ctx kind kind τ τ' name name
          (fun he => hττ' he.symm),
          under_backupRoot_target_false ctx kind kind τ' name runId hbase
            hbackup⟩
    by_cases hsupp : τ ∈ DEFAULT_TOOL_SUPPORT kind
    · cases hres : installEntry st.fs
          { sourcePath := typedCanonicalPath ctx kind name,
            targetPath := typedTargetPath ctx kind τ name,
            sourceType := sourceType, mode := ctx.mode,
            overwrite := ctx.overwrite, backupRoot := ctx.backupRoot,
            baseDir := ctx.baseDir, dryRun := ctx.dryRun,
            now := ctx.now } with
      | error msg =>
        rw [installToolTarget_error ctx kind name _ sourceType st targets τ
          msg hsupp hres]
        exact ih _ targets hnodup' hallow' hcp
          (fun t ht => ⟨fun hmem => (hinv t ht).1 (by simp [hmem]),
            (hinv t ht).2⟩)
      | ok res =>
        obtain ⟨r, fs', b⟩ := res
        have hcp' : Fs.lookup fs' (typedCanonicalPath ctx kind name) =
            some e0 :=
          installEntry_ok_frame hres hcp
            (hframe _ (Or.inl rfl)).1 (hframe _ (Or.inl rfl)).2
        have hold : ∀ t ∈ targets, t.tool ∉ rest ∧
            TargetConc ctx kind name e0 allowed fs' t := by
          intro t ht
          obtain ⟨hmem, hconc⟩ := hinv t ht
          have hττ : t.tool ≠ τ := fun he => hmem (by simp [he])
          have hfr := hframe (typedTargetPath ctx kind t.tool name)
            (Or.inr ⟨t.tool, hττ, rfl⟩)
          refine ⟨fun hm => hmem (by simp [hm]), ?_⟩
          obtain ⟨h1, h2, h3, h4, h5, h6⟩ := hconc
          refine ⟨h1, h2, h3, h4, fun hm => ?_, fun hm => ?_⟩
          · rw [h4]
            exact installEntry_ok_frame hres (h4 ▸ h5 hm) hfr.1 hfr.2
          · rw [h4]
            exact installEntry_ok_frame hres (h4 ▸ h6 hm) hfr.1 hfr.2
        cases r with
        | skipped =>
          rw [installToolTarget_skipped ctx kind name _ sourceType st targets
            τ fs' b hsupp hres]
          exact ih _ targets hnodup' hallow' hcp' hold
        | installed =>
          rw [installToolTarget_installed ctx kind name _ sourceType st
            targets τ fs' b hsupp hres]
          have hnew : TargetConc ctx kind name e0 allowed fs'
              { tool := τ, path := typedTargetPath ctx kind τ name,
                mode := ctx.mode } := by
            refine ⟨hallow τ (by simp), hsupp, rfl, rfl, ?_, ?_⟩
            · intro hm
              exact installEntry_installed_symlink hres hm hd
            · intro hm
              have hsT := (hframe _ (Or.inl rfl)).1
              have hsB := (hframe _ (Or.inl rfl)).2
              by_cases hsk : kind = .skills
              · have hstd : sourceType = SourceType.dir := by
                  rw [hstype, if_pos hsk]
                exact installEntry_installed_copyDir hres hm hstd hd hcp
                  hsT hsB
              · obtain ⟨c, rfl⟩ := hfileE hsk
                have hstf : sourceType = SourceType.file := by
                  rw [hstype, if_neg hsk]
                exact installEntry_installed_copyFile hres hm hstf hd hcp
                  hsT hsB
          have hinvNew : ∀ t ∈ targets ++
              [RuntimeTarget.mk τ (typedTargetPath ctx kind τ name) ctx.mode],
              t.tool ∉ rest ∧
              TargetConc ctx kind name e0 allowed fs' t := by
            intro t ht
            rcases List.mem_append.mp ht with hin | hin
            · exact hold t hin
            · simp only [List.mem_singleton] at hin
              subst hin
              exact ⟨hτrest, hnew⟩
          exact ih _ _ hnodup' hallow' hcp' hinvNew
    · rw [installToolTarget_unsupported ctx kind name _ sourceType
        (st, targets) τ hsupp]
      exact ih _ targets hnodup' hallow' hcp
        (fun t ht => ⟨fun hmem => (hinv t ht).1 (by simp [hmem]),
          (hinv t ht).2⟩)

theorem md_leaf_ne_dotdot (n : String) : n ++ ".md" ≠ ".." := by
  intro h
  have hlen := congrArg String.length h
  rw [String.length_append] at hlen
  have h2 : (".md" : String).length = 3 := rfl
  have h3 : (".." : String).length = 2 := rfl
  omega

theorem typedLeaf_ne_dotdot {kind : ComponentKind} {name : String}
    (h : name ≠ "..") : typedLeaf kind name ≠ ".." := by
  unfold typedLeaf
  by_cases hsk : kind = .skills
  · simp [hsk, h]
  · simp [hsk]
    exact md_leaf_ne_dotdot name

theorem kindStr_ne_dotdot {kind : ComponentKind} : kindStr kind ≠ ".." := by
  cases kind <;> decide

theorem typedCanonicalPath_no_dotdot (ctx : InstallRunCtx)
    (kind : ComponentKind) (name : String)
    (hbase : ctx.canonicalRoot = ctx.baseDir ++ [".agents"])
    (hnorm : Path.normalized ctx.baseDir) (hname : name ≠ "..") :
    ∀ s ∈ typedCanonicalPath ctx kind name, s ≠ ".." := by
  intro s hs
  unfold typedCanonicalPath at hs
  rw [hbase] at hs
  simp only [List.append_assoc, List.mem_append, List.mem_cons,
    List.mem_singleton, List.not_mem_nil, or_false] at hs
  rcases hs with hs | hs | hs | hs
  · exact (hnorm s hs).1
  · subst hs; decide
  · subst hs; exact kindStr_ne_dotdot
  · subst hs; exact typedLeaf_ne_dotdot hname

theorem typedCanonicalPath_ne_nil (ctx : InstallRunCtx)
    (kind : ComponentKind) (name : String) :
    typedCanonicalPath ctx kind name ≠ [] := by
  unfold typedCanonicalPath
  simp

/-- Claim C1: for every selected typed component (agents, skills,
commands), `installTyped` first materializes the item into the canonical
root in copy mode regardless of the user-chosen mode (the canonical path
ends up holding a copy of the source entry), and then materializes each
supporting tool's target using the canonical path — not the original
source path — as the source: a tool target recorded in symlink mode is a
link that resolves to the canonical path, and one recorded in copy mode
holds the canonical (source) content. -/
theorem installTyped_canonical_then_tools
    (ctx : InstallRunCtx) (kind : ComponentKind) (name : String)
    (sourceType : SourceType) (st0 : InstallTypedState) (e0 : FsEntry)
    (runId : String)
    (hk : isTypedKind kind)
    (hd : ctx.dryRun = false)
    (hbase : ctx.canonicalRoot = ctx.baseDir ++ [".agents"])
    (hbackup : ctx.backupRoot = ctx.canonicalRoot ++ ["backups", runId])
    (hnorm : Path.normalized ctx.baseDir)
    (hname : name ≠ "..")
    (hstype : sourceType =
      (if kind = .skills then SourceType.dir else SourceType.file))
    (hsrc : Fs.lookup st0.fs (typedSourcePath ctx kind name) = some e0)
    (hfileE : kind ≠ .skills → ∃ c, e0 = FsEntry.file c)
    (hsrcOut : under ctx.canonicalRoot (typedSourcePath ctx kind name) = false)
    (hfresh : Fs.lookup st0.fs (typedCanonicalPath ctx kind name) = none ∨
      (ctx.overwrite = true ∧
        Fs.existsSync st0.fs (typedCanonicalPath ctx kind name) = true))
    (hnodup : ctx.tools.Nodup) :
    ∃ targets,
      (installTyped ctx kind [name] sourceType st0).entries =
        st0.entries ++ [RuntimeComponentEntry.mk name
          (typedCanonicalPath ctx kind name)
          (typedSourcePath ctx kind name) targets] ∧
      Fs.lookup (installTyped ctx kind [name] sourceType st0).fs
        (typedCanonicalPath ctx kind name) = some e0 ∧
      ∀ t ∈ targets,
        t.tool ∈ ctx.tools ∧ t.tool ∈ DEFAULT_TOOL_SUPPORT kind ∧
        t.mode = ctx.mode ∧ t.path = typedTargetPath ctx kind t.tool name ∧
        (ctx.mode = .symlink → ∃ l,
          Fs.lookup (installTyped ctx kind [name] sourceType st0).fs t.path =
            some (.symlink l) ∧
          resolveRel t.path.dropLast l = typedCanonicalPath ctx kind name) ∧
        (ctx.mode = .copy →
          Fs.lookup (installTyped ctx kind [name] sourceType st0).fs t.path =
            some e0) := by
  have hbcf := under_backupRoot_canonical_false ctx kind name runId hk hbase
    hbackup
  have hP0ne : typedCanonicalPath ctx kind name ≠ [] :=
    typedCanonicalPath_ne_nil ctx kind name
  have hsT : under (typedCanonicalPath ctx kind name)
      (typedSourcePath ctx kind name) = false := by
    by_contra hx
    rw [Bool.not_eq_false] at hx
    have hroot : under ctx.canonicalRoot (typedSourcePath ctx kind name) =
        true := under_root_of_under_extension hx
    rw [hsrcOut] at hroot
    exact Bool.false_ne_true hroot
  have hsB : under ctx.backupRoot (typedSourcePath ctx kind name) = false := by
    by_contra hx
    rw [Bool.not_eq_false] at hx
    rw [hbackup] at hx
    have hroot : under ctx.canonicalRoot (typedSourcePath ctx kind name) =
        true := under_root_of_under_extension hx
    rw [hsrcOut] at hroot
    exact Bool.false_ne_true hroot
  have hfreshP : freshOrReplace st0.fs
      { sourcePath := typedSourcePath ctx kind name,
        targetPath := typedCanonicalPath ctx kind name,
        sourceType := sourceType, mode := .copy, overwrite := ctx.overwrite,
        backupRoot := ctx.backupRoot, baseDir := ctx.baseDir,
        dryRun := ctx.dryRun, now := ctx.now } := by
    unfold freshOrReplace
    rcases hfresh with hnone | ⟨hov, hex⟩
    · exact Or.inl hnone
    · exact Or.inr ⟨hov, hex, hbcf⟩
  have hok : ∃ fs1 b1, installEntry st0.fs
      { sourcePath := typedSourcePath ctx kind name,
        targetPath := typedCanonicalPath ctx kind name,
        sourceType := sourceType, mode := .copy, overwrite := ctx.overwrite,
        backupRoot := ctx.backupRoot, baseDir := ctx.baseDir,
        dryRun := ctx.dryRun, now := ctx.now } = .ok (.installed, fs1, b1) ∧
      Fs.lookup fs1 (typedCanonicalPath ctx kind name) = some e0 := by
    by_cases hsk : kind = .skills
    · have hstd : sourceType = SourceType.dir := by rw [hstype, if_pos hsk]
      exact installEntry_copyDir_ok rfl hstd hd hP0ne hfreshP hsrc hsT hsB
    · obtain ⟨c, he0⟩ := hfileE hsk
      have hstf : sourceType = SourceType.file := by rw [hstype, if_neg hsk]
      obtain ⟨fs1, b1, hres, hlk⟩ := installEntry_copyFile_ok rfl hstf hd
        hP0ne hfreshP (he0 ▸ hsrc) hsT hsB
      exact ⟨fs1, b1, hres, by rw [hlk, he0]⟩
  obtain ⟨fs1, b1, hres, hfs1⟩ := hok
  have hstep : installTyped ctx kind [name] sourceType st0 =
      (let st1 : InstallTypedState := { st0 with
        fs := fs1
        installedCount := st0.installedCount + 1
        backupCount := bumpIf b1 st0.backupCount }
      let folded := ctx.tools.foldl
        (installToolTarget ctx kind name (typedCanonicalPath ctx kind name)
          sourceType) (st1, [])
      { folded.1 with
          entries := folded.1.entries ++
            [RuntimeComponentEntry.mk name
              (typedCanonicalPath ctx kind name)
              (typedSourcePath ctx kind name) folded.2] }) := by
    unfold installTyped
    rw [List.foldl_cons, List.foldl_nil]
    unfold installTypedStep
    dsimp only
    rw [hres]
  rw [hstep]
  dsimp only
  have hfold := installToolTarget_foldl ctx kind name sourceType e0 runId
    ctx.tools hk hd hbase hbackup hstype hfileE ctx.tools
    { st0 with
      fs := fs1
      installedCount := st0.installedCount + 1
      backupCount := bumpIf b1 st0.backupCount } [] hnodup
    (fun τ h => h) hfs1 (by simp)
  obtain ⟨hfoldcp, hfoldent, hfoldtc⟩ := hfold
  refine ⟨(ctx.tools.foldl (installToolTarget ctx kind name
      (typedCanonicalPath ctx kind name) sourceType)
      ({ st0 with
          fs := fs1
          installedCount := st0.installedCount + 1
          backupCount := bumpIf b1 st0.backupCount }, [])).2,
    ?_, hfoldcp, ?_⟩
  · rw [hfoldent]
  · intro t ht
    obtain ⟨h1, h2, h3, h4, h5, h6⟩ := hfoldtc t ht
    refine ⟨h1, h2, h3, h4, fun hm => ?_, h6⟩
    refine ⟨relSegs t.path.dropLast (typedCanonicalPath ctx kind name),
      h5 hm, ?_⟩
    exact resolveRel_relSegs _ _
      (typedCanonicalPath_no_dotdot ctx kind name hbase hnorm hname)

/-- A concrete run context for exercising the install flow: local scope at
`/home/proj`, symlink mode, both tools. -/
def sampleRunCtx : InstallRunCtx :=
  { rootDir := ["tmp", "repo"]
    baseDir := ["home", "proj"]
    canonicalRoot := ["home", "proj", ".agents"]
    backupRoot := ["home", "proj", ".agents", "backups", "run1"]
    mode := .symlink
    overwrite := false
    dryRun := false
    tools := [.claude, .cursor]
    now := 1 }

/-- A concrete starting state whose source tree holds one agent file. -/
def sampleRunState : InstallTypedState :=
  { fs := [((["tmp", "repo", "agents", "helper.md"] : Path),
      FsEntry.file "agent body")]
    entries := []
    installedCount := 0
    skippedCount := 0
    failedCount := 0
    backupCount := 0 }

/-- Claim C1 witness: the two-stage theorem applied at the concrete run
above; in particular the canonical path ends up holding a byte-copy of the
discovered source file. -/
theorem installTyped_canonical_then_tools_witness :
    Fs.lookup (installTyped sampleRunCtx .agents ["helper"] .file
        sampleRunState).fs
      ["home", "proj", ".agents", "agents", "helper.md"] =
      some (FsEntry.file "agent body") := by
  have h := installTyped_canonical_then_tools sampleRunCtx .agents "helper"
    .file sampleRunState (FsEntry.file "agent body") "run1"
    (Or.inl rfl) rfl rfl rfl (by decide) (by decide) rfl rfl
    (fun _ => ⟨"agent body", rfl⟩) rfl (Or.inl rfl) (by decide)
  obtain ⟨targets, h1, h2, h3⟩ := h
  exact h2

/-! ## The install command pipeline (src/commands/install.ts lines 449-775)

The model covers the non-interactive path (`--yes` or a non-TTY session);
interactive prompting is an external collaborator at the boundary of the
spec.  CLI selector values arrive as `string | boolean | undefined`. -/

inductive CliSelector where
  | unset : CliSelector
  | flag (b : Bool) : CliSelector
  | csv (s : String) : CliSelector

structure SelectorState where
  requested : Bool
  values : Option (List String)

def parseSelector : CliSelector → SelectorState
  | .unset => { requested := false, values := none }
  | .flag b => { requested := b, values := none }
  | .csv s => { requested := true, values := some (parseCsv (some s)) }

def unknownSelectionMessage (kind : ComponentKind)
    (invalid available : List String) : String :=
  "Unknown " ++ kindStr kind ++ " requested: " ++
    String.intercalate ", " invalid ++ ". Available: " ++
    (if available.length > 0 then String.intercalate ", " available
     else "(none)")

def validateExplicitSelection (kind : ComponentKind)
    (selected available : List String) : Except String (List String) :=
  let invalid := selected.filter (fun e => decide (e ∉ available))
  if invalid.length > 0 then
    .error (unknownSelectionMessage kind invalid available)
  else .ok selected

/-- `resolveCategory` (non-interactive): a kind that was not selected or
has nothing discovered resolves to the empty list (with a warning);
explicit values are validated; otherwise everything discovered is
selected. -/
def resolveCategory (selectedKinds : List ComponentKind)
    (state : SelectorState) (kind : ComponentKind)
    (available : List String) : Except String (List String) :=
  if kind ∉ selectedKinds then .ok []
  else if available.length = 0 then .ok []
  else
    match state.values with
    | some vs =>
      if vs.length > 0 then validateExplicitSelection kind vs available
      else .ok available
    | none => .ok available

structure InstallCmdOptions where
  agents : CliSelector
  skills : CliSelector
  commands : CliSelector
  files : CliSelector
  globalFlag : Bool
  localFlag : Bool
  pathArg : Option Path
  mode : InstallMode
  tools : List ToolName
  force : Bool
  dryRun : Bool

structure InstallCmdEnv where
  homedir : Path
  cwd : Path
  source : SourceInfo
  installedAt : String
  runId : String
  now : Nat

/-- Scope resolution in the non-interactive path: `--global` wins, then
`--path`, then local (the `--local` flag and the non-interactive default
agree). -/
def resolveScopeAndPath (opts : InstallCmdOptions) : ScopeName × Option Path :=
  if opts.globalFlag then (.global, none)
  else
    match opts.pathArg with
    | some p => (.path, some p)
    | none => (.«local», none)

/-- The kinds to process: the requested ones in the fixed configuration
order, or all of them when none was requested explicitly. -/
def selectedKindsOf (a s c f : SelectorState) : List ComponentKind :=
  if a.requested || s.requested || c.requested || f.requested then
    (if a.requested then [ComponentKind.agents] else []) ++
    (if s.requested then [ComponentKind.skills] else []) ++
    (if c.requested then [ComponentKind.commands] else []) ++
    (if f.requested then [ComponentKind.files] else [])
  else [.agents, .skills, .commands, .files]

/-- The per-group body of the file-group loop (no canonical indirection,
copy mode, dotted target under the base directory). -/
def installFileGroup (ctx : InstallRunCtx)
    (acc : InstallTypedState × List RuntimeFileGroupEntry) (group : String) :
    InstallTypedState × List RuntimeFileGroupEntry :=
  let st := acc.1
  let sourcePath := ctx.rootDir ++ [group]
  let targetPath := ctx.baseDir ++ [resolveFileGroupTarget group]
  match installEntry st.fs
    { sourcePath := sourcePath, targetPath := targetPath,
      sourceType := .dir, mode := .copy, overwrite := ctx.overwrite,
      backupRoot := ctx.backupRoot, baseDir := ctx.baseDir,
      dryRun := ctx.dryRun, now := ctx.now } with
  | .error _ => ({ st with failedCount := st.failedCount + 1 }, acc.2)
  | .ok (.skipped, fs', b) =>
    ({ st with
        fs := fs'
        skippedCount := st.skippedCount + 1
        backupCount := bumpIf b st.backupCount }, acc.2)
  | .ok (.installed, fs', b) =>
    ({ st with
        fs := fs'
        installedCount := st.installedCount + 1
        backupCount := bumpIf b st.backupCount },
      acc.2 ++ [RuntimeFileGroupEntry.mk group sourcePath targetPath])

/-- The install command, from discovery to the manifest write, threading
the filesystem; `.ok none` is the early "nothing to install" return. -/
def installCommandModel (env : InstallCmdEnv) (opts : InstallCmdOptions)
    (fs0 : Fs) : Fs × Except String (Option RuntimeManifest) :=
  let discovered := discoverSource fs0 env.source.resolvedPath
  let selAgents := parseSelector opts.agents
  let selSkills := parseSelector opts.skills
  let selCommands := parseSelector opts.commands
  let selFiles := parseSelector opts.files
  let selectedKinds := selectedKindsOf selAgents selSkills selCommands selFiles
  if selectedKinds.isEmpty then (fs0, .ok none)
  else
    let scopePair := resolveScopeAndPath opts
    match resolveCategory selectedKinds selAgents .agents discovered.agents with
    | .error e => (fs0, .error e)
    | .ok selectedAgents =>
    match resolveCategory selectedKinds selSkills .skills discovered.skills with
    | .error e => (fs0, .error e)
    | .ok selectedSkills =>
    match resolveCategory selectedKinds selCommands .commands
        discovered.commands with
    | .error e => (fs0, .error e)
    | .ok selectedCommands =>
    match resolveCategory selectedKinds selFiles .files
        discovered.fileGroups with
    | .error e => (fs0, .error e)
    | .ok selectedFiles =>
    match resolveBaseDir env.homedir env.cwd scopePair.1 scopePair.2 with
    | .error e => (fs0, .error e)
    | .ok baseDir =>
      let canonicalRoot := getCanonicalRoot env.homedir baseDir scopePair.1
      let backupRoot := canonicalRoot ++ ["backups", env.runId]
      let ctx : InstallRunCtx :=
        { rootDir := discovered.rootDir, baseDir := baseDir,
          canonicalRoot := canonicalRoot, backupRoot := backupRoot,
          mode := opts.mode, overwrite := opts.force, dryRun := opts.dryRun,
          tools := opts.tools, now := env.now }
      let st0 : InstallTypedState :=
        { fs := fs0, entries := [], installedCount := 0, skippedCount := 0,
          failedCount := 0, backupCount := 0 }
      let stA := installTyped ctx .agents selectedAgents .file st0
      let stS := installTyped ctx .skills selectedSkills .dir
        { stA with entries := [] }
      let stC := installTyped ctx .commands selectedCommands .file
        { stS with entries := [] }
      let fgs := selectedFiles.foldl (installFileGroup ctx)
        ({ stC with entries := [] }, [])
      let manifest : RuntimeManifest :=
        { schemaVersion := 2
          installedAt := env.installedAt
          baseDir := baseDir
          canonicalRoot := canonicalRoot
          scope := scopePair.1
          mode := opts.mode
          tools := opts.tools
          source := env.source
          selection := Selection.mk selectedAgents selectedSkills
            selectedCommands selectedFiles
          reservedIgnored := discovered.reservedIgnored
          components := Components.mk stA.entries stS.entries stC.entries
            fgs.2 }
      if opts.dryRun then (fgs.1.fs, .ok (some manifest))
      else (writeRuntimeManifest fgs.1.fs canonicalRoot manifest,
        .ok (some manifest))

/-! ### Failing explicit selections (claim C5) -/

def kindSelector (opts : InstallCmdOptions) : ComponentKind → CliSelector
  | .agents => opts.agents
  | .skills => opts.skills
  | .commands => opts.commands
  | .files => opts.files

def kindDiscovered (d : DiscoveredSource) : ComponentKind → List String
  | .agents => d.agents
  | .skills => d.skills
  | .commands => d.commands
  | .files => d.fileGroups

def kindState (a s c f : SelectorState) : ComponentKind → SelectorState
  | .agents => a
  | .skills => s
  | .commands => c
  | .files => f

theorem parseSelector_values_requested {sel : CliSelector}
    {vs : List String} (h : (parseSelector sel).values = some vs) :
    (parseSelector sel).requested = true := by
  cases sel <;> simp_all [parseSelector]

theorem kindState_parseSelector (opts : InstallCmdOptions)
    (k : ComponentKind) :
    kindState (parseSelector opts.agents) (parseSelector opts.skills)
      (parseSelector opts.commands) (parseSelector opts.files) k =
      parseSelector (kindSelector opts k) := by
  cases k <;> rfl

theorem mem_selectedKindsOf {a s c f : SelectorState} {k : ComponentKind}
    (h : (kindState a s c f k).requested = true) :
    k ∈ selectedKindsOf a s c f := by
  cases k <;> simp [kindState] at h <;> simp [selectedKindsOf, h]

theorem resolveCategory_error_shape {sk : List ComponentKind}
    {st : SelectorState} {kind : ComponentKind} {av : List String}
    {e : String} (h : resolveCategory sk st kind av = .error e) :
    ∃ inv, e = unknownSelectionMessage kind inv av ∧ inv ≠ [] ∧
      ∀ x ∈ inv, x ∉ av := by
  unfold resolveCategory at h
  by_cases h1 : kind ∈ sk
  · have h1' : ¬kind ∉ sk := by simp [h1]
    rw [if_neg h1'] at h
    by_cases h2 : av.length = 0
    · rw [if_pos h2] at h
      simp at h
    · rw [if_neg h2] at h
      cases hv : st.values with
      | none => rw [hv] at h; simp at h
      | some vs =>
        rw [hv] at h
        dsimp only at h
        by_cases h3 : vs.length > 0
        · rw [if_pos h3] at h
          unfold validateExplicitSelection at h
          dsimp only at h
          by_cases h4 : (vs.filter (fun x => decide (x ∉ av))).length > 0
          · rw [if_pos h4] at h
            refine ⟨vs.filter (fun x => decide (x ∉ av)),
              by simpa using h.symm, ?_, ?_⟩
            · intro hnil
              rw [hnil] at h4
              simp at h4
            · intro x hx
              have := List.of_mem_filter hx
              simpa using this
          · rw [if_neg h4] at h
            simp at h
        · rw [if_neg h3] at h
          simp at h
  · have h1' : kind ∉ sk := h1
    rw [if_pos h1'] at h
    simp at h

theorem resolveCategory_explicit_invalid {sk : List ComponentKind}
    {st : SelectorState} {kind : ComponentKind} {av vs : List String}
    (hmem : kind ∈ sk) (hvals : st.values = some vs) (hvs : vs ≠ [])
    (hav : av ≠ []) (hinv : ∃ x ∈ vs, x ∉ av) :
    ∃ e, resolveCategory sk st kind av = .error e := by
  obtain ⟨x, hx, hxa⟩ := hinv
  have hfilter : x ∈ vs.filter (fun y => decide (y ∉ av)) :=
    List.mem_filter.mpr ⟨hx, by simpa using hxa⟩
  have hflen : (vs.filter (fun y => decide (y ∉ av))).length > 0 :=
    List.length_pos.mpr (List.ne_nil_of_mem hfilter)
  refine ⟨unknownSelectionMessage kind
    (vs.filter (fun y => decide (y ∉ av))) av, ?_⟩
  unfold resolveCategory
  have h1' : ¬kind ∉ sk := by simp [hmem]
  rw [if_neg h1']
  have h2' : ¬av.length = 0 := by
    simpa [List.length_eq_zero] using hav
  rw [if_neg h2']
  rw [hvals]
  dsimp only
  have h3' : vs.length > 0 := by
    simpa [List.length_pos] using hvs
  rw [if_pos h3']
  unfold validateExplicitSelection
  dsimp only
  rw [if_pos hflen]

/-- Claim C5 (amended): an explicit csv name list containing a name absent
from the discovered set makes the run fail before any filesystem write —
provided the kind's discovered set is nonempty (a kind with zero
discovered names is skipped with a warning instead, see the
counterexample) — and the error is an unknown-selection message naming
the invalid names and the available set (of the earliest offending
kind). -/
theorem installCommand_invalid_explicit_selection_fails
    (env : InstallCmdEnv) (opts : InstallCmdOptions) (fs0 : Fs)
    (k : ComponentKind) (vs : List String)
    (hsel : (parseSelector (kindSelector opts k)).values = some vs)
    (hvs : vs ≠ [])
    (hav : kindDiscovered (discoverSource fs0 env.source.resolvedPath) k ≠ [])
    (hinv : ∃ x ∈ vs,
      x ∉ kindDiscovered (discoverSource fs0 env.source.resolvedPath) k) :
    (installCommandModel env opts fs0).1 = fs0 ∧
    ∃ k' inv av, (installCommandModel env opts fs0).2 =
        .error (unknownSelectionMessage k' inv av) ∧
      inv ≠ [] ∧ ∀ x ∈ inv, x ∉ av := by
  have hreq := parseSelector_values_requested hsel
  rw [← kindState_parseSelector opts k] at hsel hreq
  have hmem := mem_selectedKindsOf hreq
  have hker : ∃ e, resolveCategory
      (selectedKindsOf (parseSelector opts.agents) (parseSelector opts.skills)
        (parseSelector opts.commands) (parseSelector opts.files))
      (kindState (parseSelector opts.agents) (parseSelector opts.skills)
        (parseSelector opts.commands) (parseSelector opts.files) k) k
      (kindDiscovered (discoverSource fs0 env.source.resolvedPath) k) =
      .error e :=
    resolveCategory_explicit_invalid hmem hsel hvs hav hinv
  unfold installCommandModel
  rw [if_neg (by
    simp only [List.isEmpty_iff]
    exact List.ne_nil_of_mem hmem)]
  dsimp only
  cases hA : resolveCategory
      (selectedKindsOf (parseSelector opts.agents) (parseSelector opts.skills)
        (parseSelector opts.commands) (parseSelector opts.files))
      (parseSelector opts.agents) .agents
      (discoverSource fs0 env.source.resolvedPath).agents with
  | error e =>
    dsimp only
    obtain ⟨inv, he, hne, hall⟩ := resolveCategory_error_shape hA
    exact ⟨rfl, .agents, inv, _, by rw [he], hne, hall⟩
  | ok la =>
    dsimp only
    cases hB : resolveCategory
        (selectedKindsOf (parseSelector opts.agents)
          (parseSelector opts.skills) (parseSelector opts.commands)
          (parseSelector opts.files))
        (parseSelector opts.skills) .skills
        (discoverSource fs0 env.source.resolvedPath).skills with
    | error e =>
      dsimp only
      obtain ⟨inv, he, hne, hall⟩ := resolveCategory_error_shape hB
      exact ⟨rfl, .skills, inv, _, by rw [he], hne, hall⟩
    | ok ls =>
      dsimp only
      cases hC : resolveCategory
          (selectedKindsOf (parseSelector opts.agents)
            (parseSelector opts.skills) (parseSelector opts.commands)
            (parseSelector opts.files))
          (parseSelector opts.commands) .commands
          (discoverSource fs0 env.source.resolvedPath).commands with
      | error e =>
        dsimp only
        obtain ⟨inv, he, hne, hall⟩ := resolveCategory_error_shape hC
        exact ⟨rfl, .commands, inv, _, by rw [he], hne, hall⟩
      | ok lc =>
        dsimp only
        cases hD : resolveCategory
            (selectedKindsOf (parseSelector opts.agents)
              (parseSelector opts.skills) (parseSelector opts.commands)
              (parseSelector opts.files))
            (parseSelector opts.files) .files
            (discoverSource fs0 env.source.resolvedPath).fileGroups with
        | error e =>
          dsimp only
          obtain ⟨inv, he, hne, hall⟩ := resolveCategory_error_shape hD
          exact ⟨rfl, .files, inv, _, by rw [he], hne, hall⟩
        | ok lf =>
          exfalso
          obtain ⟨e, hker⟩ := hker
          cases k with
          | agents =>
            rw [kindState, kindDiscovered] at hker
            rw [hA] at hker
            simp at hker
          | skills =>
            rw [kindState, kindDiscovered] at hker
            rw [hB] at hker
            simp at hker
          | commands =>
            rw [kindState, kindDiscovered] at hker
            rw [hC] at hker
            simp at hker
          | files =>
            rw [kindState, kindDiscovered] at hker
            rw [hD] at hker
            simp at hker

/-- A run whose explicit agents csv names a nonexistent agent. -/
def ghostOpts : InstallCmdOptions :=
  { agents := .csv "ghost"
    skills := .unset
    commands := .unset
    files := .unset
    globalFlag := false
    localFlag := true
    pathArg := none
    mode := .copy
    tools := [.claude]
    force := false
    dryRun := false }

def ghostEnv : InstallCmdEnv :=
  { homedir := ["home"]
    cwd := ["home", "proj"]
    source := SourceInfo.mk "repo" .«local» none none none ["tmp", "repo"]
    installedAt := "2024-01-01T00:00:00Z"
    runId := "run1"
    now := 1 }

/-- A source tree with no `agents` directory at all. -/
def ghostFs : Fs := [((["tmp", "repo"] : Path), FsEntry.dir)]

/-- A source tree whose `agents` directory holds one agent, `helper`. -/
def ghostFs2 : Fs :=
  [((["tmp", "repo"] : Path), FsEntry.dir),
   ((["tmp", "repo", "agents"] : Path), FsEntry.dir),
   ((["tmp", "repo", "agents", "helper.md"] : Path), FsEntry.file "a")]

/-- Claim C5, counterexample to the frozen wording: with an explicit
`--agents ghost` selection and an empty discovered agents set (the source
tree has no `agents` directory), the run does not fail: the
empty-available early return in `resolveCategory` bypasses
`validateExplicitSelection`, the command returns `.ok` with a manifest,
and the runtime manifest is written to disk. -/
theorem installCommand_ghost_selection_succeeds :
    "ghost" ∉ (discoverSource ghostFs ghostEnv.source.resolvedPath).agents ∧
    (parseSelector ghostOpts.agents).values = some ["ghost"] ∧
    (∃ m, (installCommandModel ghostEnv ghostOpts ghostFs).2 =
      .ok (some m)) ∧
    (Fs.lookup (installCommandModel ghostEnv ghostOpts ghostFs).1
      (getRuntimeManifestPath ["home", "proj", ".agents"])).isSome = true :=
  ⟨by decide, rfl, ⟨_, rfl⟩, rfl⟩

/-- Claim C5 witness: the amended theorem at a concrete run where one
agent (`helper`) is discovered and the explicit selection names `ghost`:
the run errors out and the filesystem is untouched. -/
theorem installCommand_invalid_explicit_selection_fails_witness :
    (installCommandModel ghostEnv ghostOpts ghostFs2).1 = ghostFs2 ∧
    ∃ k' inv av, (installCommandModel ghostEnv ghostOpts ghostFs2).2 =
        .error (unknownSelectionMessage k' inv av) ∧
      inv ≠ [] ∧ ∀ x ∈ inv, x ∉ av :=
  installCommand_invalid_explicit_selection_fails ghostEnv ghostOpts ghostFs2
    .agents ["ghost"] rfl (by decide) (by decide)
    ⟨"ghost", by decide, by decide⟩

/-! ### Skipped canonical installs produce no fan-out (claim C10) -/

theorem installTypedStep_skipped (ctx : InstallRunCtx)
    (kind : ComponentKind) (ty : SourceType) (st : InstallTypedState)
    (name : String)
    (hex : Fs.existsSync st.fs (typedCanonicalPath ctx kind name) = true)
    (hov : ctx.overwrite = false) :
    installTypedStep ctx kind ty st name =
      InstallTypedState.mk st.fs st.entries st.installedCount
        (st.skippedCount + 1) st.failedCount st.backupCount := by
  unfold installTypedStep
  dsimp only
  rw [installEntry_skipped_helper _ _ hex hov]
  simp [bumpIf]

/-- Claim C10: when the canonical-root installation of the one selected
agent is skipped (the canonical file already exists and `--force` is
off), no tool-level fan-out happens for that name, the manifest's
components hold no entry for it while its name still appears in the
selection, and the only filesystem write of the run is the manifest
itself. -/
theorem installCommand_skipped_canonical_no_fanout
    (env : InstallCmdEnv) (opts : InstallCmdOptions) (fs0 : Fs) (n : String)
    (hpa : parseSelector opts.agents = SelectorState.mk true (some [n]))
    (hps : opts.skills = .unset) (hpc : opts.commands = .unset)
    (hpf : opts.files = .unset)
    (hg : opts.globalFlag = false) (hpath : opts.pathArg = none)
    (hdry : opts.dryRun = false) (hforce : opts.force = false)
    (hmem : n ∈ (discoverSource fs0 env.source.resolvedPath).agents)
    (hex : Fs.existsSync fs0
      ((env.cwd ++ [".agents"]) ++ ["agents", n ++ ".md"]) = true) :
    ∃ m, (installCommandModel env opts fs0).2 = .ok (some m) ∧
      m.selection = Selection.mk [n] [] [] [] ∧
      m.components = Components.mk [] [] [] [] ∧
      (installCommandModel env opts fs0).1 =
        writeRuntimeManifest fs0 (env.cwd ++ [".agents"]) m := by
  have hsk : selectedKindsOf (parseSelector opts.agents)
      (parseSelector opts.skills) (parseSelector opts.commands)
      (parseSelector opts.files) = [ComponentKind.agents] := by
    rw [hpa, hps, hpc, hpf]
    rfl
  have hnz : ¬((discoverSource fs0 env.source.resolvedPath).agents.length
      = 0) := by
    simpa [List.length_eq_zero] using List.ne_nil_of_mem hmem
  have hra : resolveCategory [ComponentKind.agents]
      (parseSelector opts.agents) .agents
      (discoverSource fs0 env.source.resolvedPath).agents = .ok [n] := by
    rw [hpa]
    unfold resolveCategory
    rw [if_neg (show ¬ComponentKind.agents ∉ [ComponentKind.agents] by
      simp)]
    rw [if_neg hnz]
    dsimp only
    rw [if_pos (show ([n] : List String).length > 0 by simp)]
    unfold validateExplicitSelection
    dsimp only
    have hz : ([n] : List String).filter (fun e => decide
        (e ∉ (discoverSource fs0 env.source.resolvedPath).agents)) = [] := by
      simp [hmem]
    rw [hz]
    rw [if_neg (by simp)]
  have hrs : resolveCategory [ComponentKind.agents]
      (parseSelector opts.skills) .skills
      (discoverSource fs0 env.source.resolvedPath).skills = .ok [] := by
    unfold resolveCategory
    rw [if_pos (by simp : ComponentKind.skills ∉ [ComponentKind.agents])]
  have hrc : resolveCategory [ComponentKind.agents]
      (parseSelector opts.commands) .commands
      (discoverSource fs0 env.source.resolvedPath).commands = .ok [] := by
    unfold resolveCategory
    rw [if_pos (by simp : ComponentKind.commands ∉ [ComponentKind.agents])]
  have hrf : resolveCategory [ComponentKind.agents]
      (parseSelector opts.files) .files
      (discoverSource fs0 env.source.resolvedPath).fileGroups = .ok [] := by
    unfold resolveCategory
    rw [if_pos (by simp : ComponentKind.files ∉ [ComponentKind.agents])]
  have hscope : resolveScopeAndPath opts = (ScopeName.«local», none) := by
    simp [resolveScopeAndPath, hg, hpath]
  unfold installCommandModel
  dsimp only
  rw [hsk]
  rw [if_neg (show ¬(([ComponentKind.agents] :
    List ComponentKind).isEmpty = true) by decide)]
  rw [hra]
  dsimp only
  rw [hrs]
  dsimp only
  rw [hrc]
  dsimp only
  rw [hrf]
  dsimp only
  rw [hscope]
  dsimp only
  rw [show resolveBaseDir env.homedir env.cwd ScopeName.«local» none =
    .ok env.cwd from rfl]
  dsimp only
  rw [hforce, hdry]
  rw [show getCanonicalRoot env.homedir env.cwd ScopeName.«local» =
    env.cwd ++ [".agents"] from rfl]
  rw [show (installTyped
      (InstallRunCtx.mk (discoverSource fs0 env.source.resolvedPath).rootDir
        env.cwd (env.cwd ++ [".agents"])
        (env.cwd ++ [".agents"] ++ ["backups", env.runId])
        opts.mode false false opts.tools env.now)
      ComponentKind.agents [n] SourceType.file
      (InstallTypedState.mk fs0 [] 0 0 0 0)) =
    InstallTypedState.mk fs0 [] 0 1 0 0 by
    rw [show (installTyped
        (InstallRunCtx.mk (discoverSource fs0 env.source.resolvedPath).rootDir
          env.cwd (env.cwd ++ [".agents"])
          (env.cwd ++ [".agents"] ++ ["backups", env.runId])
          opts.mode false false opts.tools env.now)
        ComponentKind.agents [n] SourceType.file
        (InstallTypedState.mk fs0 [] 0 0 0 0)) =
      installTypedStep
        (InstallRunCtx.mk (discoverSource fs0 env.source.resolvedPath).rootDir
          env.cwd (env.cwd ++ [".agents"])
          (env.cwd ++ [".agents"] ++ ["backups", env.runId])
          opts.mode false false opts.tools env.now)
        ComponentKind.agents SourceType.file
        (InstallTypedState.mk fs0 [] 0 0 0 0) n from rfl]
    rw [installTypedStep_skipped _ _ _ _ _ hex rfl]]
  dsimp only
  refine ⟨_, rfl, rfl, rfl, rfl⟩

/-- Options selecting the one discovered agent explicitly. -/
def c10Opts : InstallCmdOptions :=
  { agents := .csv "helper"
    skills := .unset
    commands := .unset
    files := .unset
    globalFlag := false
    localFlag := true
    pathArg := none
    mode := .copy
    tools := [.claude]
    force := false
    dryRun := false }

/-- A source tree with one agent plus an already-present canonical copy
under the local canonical root. -/
def c10Fs : Fs :=
  [((["tmp", "repo"] : Path), FsEntry.dir),
   ((["tmp", "repo", "agents"] : Path), FsEntry.dir),
   ((["tmp", "repo", "agents", "helper.md"] : Path), FsEntry.file "a"),
   ((["home", "proj", ".agents", "agents", "helper.md"] : Path),
     FsEntry.file "old")]

/-- Claim C10 witness: the theorem at the concrete run above — the
canonical copy of `helper` already exists, so the run skips it, keeps it
out of the components, keeps it in the selection, and writes only the
manifest. -/
theorem installCommand_skipped_canonical_no_fanout_witness :
    ∃ m, (installCommandModel ghostEnv c10Opts c10Fs).2 = .ok (some m) ∧
      m.selection = Selection.mk ["helper"] [] [] [] ∧
      m.components = Components.mk [] [] [] [] ∧
      (installCommandModel ghostEnv c10Opts c10Fs).1 =
        writeRuntimeManifest c10Fs (ghostEnv.cwd ++ [".agents"]) m :=
  installCommand_skipped_canonical_no_fanout ghostEnv c10Opts c10Fs "helper"
    rfl rfl rfl rfl rfl rfl rfl rfl (by decide) (by decide)

/-! ### Runtime drift detection (src/lib/layout.ts lines 380-461) -/

/-- `resolveAbsoluteSymlinkTarget(targetPath)`: `readlinkSync` (a direct
lookup; a non-symlink or missing path throws, giving null) resolved
against the target's directory. -/
def resolveAbsoluteSymlinkTarget (fs : Fs) (targetPath : Path) :
    Option Path :=
  match Fs.lookup fs targetPath with
  | some (.symlink l) => some (resolveRel targetPath.dropLast l)
  | _ => none

/-- The per-target body of `checkComponentEntries`'s inner loop. -/
def checkTargetIssues (fs : Fs) (kind : ComponentKind) (entryName : String)
    (target : RuntimeTarget) : List Issue :=
  if !Fs.existsSync fs target.path then
    [Issue.mk "TARGET_MISSING" .error
      (kindStr kind ++ ":" ++ entryName ++ " target is missing (" ++
        toolStr target.tool ++ ")") (some target.path)]
  else if target.mode = .symlink then
    match Fs.lookup fs target.path with
    | some (.symlink l) =>
      if !Fs.existsSync fs (resolveRel target.path.dropLast l) then
        [Issue.mk "BROKEN_SYMLINK" .error
          (kindStr kind ++ ":" ++ entryName ++ " symlink target is broken")
          (some target.path)]
      else []
    | _ =>
      [Issue.mk "TARGET_NOT_SYMLINK" .warning
        (kindStr kind ++ ":" ++ entryName ++ " expected symlink target")
        (some target.path)]
  else []

/-- The per-entry body of `checkComponentEntries`. -/
def checkComponentEntry (fs : Fs) (kind : ComponentKind)
    (entry : RuntimeComponentEntry) : List Issue :=
  (if !Fs.existsSync fs entry.canonicalPath then
    [Issue.mk "CANONICAL_MISSING" .error
      (kindStr kind ++ ":" ++ entry.name ++ " canonical path is missing")
      (some entry.canonicalPath)]
   else []) ++
  entry.targets.flatMap (checkTargetIssues fs kind entry.name)

def checkFileGroupEntry (fs : Fs) (entry : RuntimeFileGroupEntry) :
    List Issue :=
  if !Fs.existsSync fs entry.targetPath then
    [Issue.mk "FILE_GROUP_MISSING" .error
      ("File group target is missing: " ++ entry.name)
      (some entry.targetPath)]
  else []

def collectRuntimeIssues (fs : Fs) (manifest : RuntimeManifest) :
    List Issue :=
  manifest.components.agents.flatMap (checkComponentEntry fs .agents) ++
  manifest.components.skills.flatMap (checkComponentEntry fs .skills) ++
  manifest.components.commands.flatMap (checkComponentEntry fs .commands) ++
  manifest.components.files.flatMap (checkFileGroupEntry fs)

/-- The typed entries the checker walks for a kind (file groups are
checked separately). -/
def componentsOf (c : Components) : ComponentKind →
    List RuntimeComponentEntry
  | .agents => c.agents
  | .skills => c.skills
  | .commands => c.commands
  | .files => []

theorem checkComponentEntry_sub {fs : Fs} {m : RuntimeManifest}
    {k : ComponentKind} {e : RuntimeComponentEntry} {i : Issue}
    (he : e ∈ componentsOf m.components k)
    (hi : i ∈ checkComponentEntry fs k e) :
    i ∈ collectRuntimeIssues fs m := by
  unfold collectRuntimeIssues
  cases k with
  | agents =>
    exact List.mem_append_left _ (List.mem_append_left _
      (List.mem_append_left _ (List.mem_flatMap.mpr ⟨e, he, hi⟩)))
  | skills =>
    exact List.mem_append_left _ (List.mem_append_left _
      (List.mem_append_right _ (List.mem_flatMap.mpr ⟨e, he, hi⟩)))
  | commands =>
    exact List.mem_append_left _ (List.mem_append_right _
      (List.mem_flatMap.mpr ⟨e, he, hi⟩))
  | files => cases he

theorem checkTargetIssues_missing {fs : Fs} {k : ComponentKind}
    {nm : String} {t : RuntimeTarget}
    (h : Fs.existsSync fs t.path = false) :
    checkTargetIssues fs k nm t =
      [Issue.mk "TARGET_MISSING" .error
        (kindStr k ++ ":" ++ nm ++ " target is missing (" ++
          toolStr t.tool ++ ")") (some t.path)] := by
  unfold checkTargetIssues
  rw [h]
  rfl

/-- Claim C2: `collectRuntimeIssues` classifies drift as specified — a
typed entry whose canonical path is missing contributes a
CANONICAL_MISSING error; a missing target contributes exactly one
TARGET_MISSING error referencing that target's path; a target declared
symlink whose filesystem entry is not a symlink contributes a
TARGET_NOT_SYMLINK warning; a declared symlink whose link resolves to a
nonexistent path contributes an error issue referencing that target's
path; a missing file-group target contributes a FILE_GROUP_MISSING
error.  The checker is pure by construction: its type
`Fs → RuntimeManifest → List Issue` returns issues only, leaving the
filesystem and the manifest untouched. -/
theorem collectRuntimeIssues_classification (fs : Fs)
    (m : RuntimeManifest) :
    (∀ k e, e ∈ componentsOf m.components k →
      Fs.existsSync fs e.canonicalPath = false →
      Issue.mk "CANONICAL_MISSING" .error
        (kindStr k ++ ":" ++ e.name ++ " canonical path is missing")
        (some e.canonicalPath) ∈ collectRuntimeIssues fs m) ∧
    (∀ k e t, e ∈ componentsOf m.components k → t ∈ e.targets →
      Fs.existsSync fs t.path = false →
      checkTargetIssues fs k e.name t =
        [Issue.mk "TARGET_MISSING" .error
          (kindStr k ++ ":" ++ e.name ++ " target is missing (" ++
            toolStr t.tool ++ ")") (some t.path)] ∧
      Issue.mk "TARGET_MISSING" .error
          (kindStr k ++ ":" ++ e.name ++ " target is missing (" ++
            toolStr t.tool ++ ")") (some t.path) ∈
        collectRuntimeIssues fs m) ∧
    (∀ k e t, e ∈ componentsOf m.components k → t ∈ e.targets →
      Fs.existsSync fs t.path = true → t.mode = .symlink →
      (∀ l, Fs.lookup fs t.path ≠ some (.symlink l)) →
      Issue.mk "TARGET_NOT_SYMLINK" .warning
        (kindStr k ++ ":" ++ e.name ++ " expected symlink target")
        (some t.path) ∈ collectRuntimeIssues fs m) ∧
    (∀ k e t l, e ∈ componentsOf m.components k → t ∈ e.targets →
      t.mode = .symlink → Fs.lookup fs t.path = some (.symlink l) →
      Fs.existsSync fs (resolveRel t.path.dropLast l) = false →
      ∃ i ∈ collectRuntimeIssues fs m,
        i.severity = .error ∧ i.path = some t.path) ∧
    (∀ g, g ∈ m.components.files →
      Fs.existsSync fs g.targetPath = false →
      Issue.mk "FILE_GROUP_MISSING" .error
        ("File group target is missing: " ++ g.name)
        (some g.targetPath) ∈ collectRuntimeIssues fs m) := by
  refine ⟨?_, ?_, ?_, ?_, ?_⟩
  · intro k e he hc
    refine checkComponentEntry_sub he ?_
    unfold checkComponentEntry
    rw [hc]
    exact List.mem_append_left _ (by simp)
  · intro k e t he ht hmiss
    refine ⟨checkTargetIssues_missing hmiss, ?_⟩
    refine checkComponentEntry_sub he (List.mem_append_right _
      (List.mem_flatMap.mpr ⟨t, ht, ?_⟩))
    rw [checkTargetIssues_missing hmiss]
    simp
  · intro k e t he ht hex hmode hnl
    refine checkComponentEntry_sub he (List.mem_append_right _
      (List.mem_flatMap.mpr ⟨t, ht, ?_⟩))
    unfold checkTargetIssues
    rw [hex]
    rw [if_neg (show ¬((!true) = true) by simp)]
    rw [if_pos hmode]
    cases hl : Fs.lookup fs t.path with
    | none =>
      dsimp only
      simp
    | some e' =>
      cases e' with
      | symlink l => exact absurd hl (hnl l)
      | file c =>
        dsimp only
        simp
      | jsonFile v =>
        dsimp only
        simp
      | dir =>
        dsimp only
        simp
  · intro k e t l he ht hmode hl hb
    have hmiss : Fs.existsSync fs t.path = false :=
      Fs.existsSync_symlink_broken fs t.path l hl hb
    refine ⟨Issue.mk "TARGET_MISSING" .error
      (kindStr k ++ ":" ++ e.name ++ " target is missing (" ++
        toolStr t.tool ++ ")") (some t.path), ?_, rfl, rfl⟩
    refine checkComponentEntry_sub he (List.mem_append_right _
      (List.mem_flatMap.mpr ⟨t, ht, ?_⟩))
    rw [checkTargetIssues_missing hmiss]
    simp
  · intro g hg hmiss
    unfold collectRuntimeIssues
    refine List.mem_append_right _ (List.mem_flatMap.mpr ⟨g, hg, ?_⟩)
    unfold checkFileGroupEntry
    rw [hmiss]
    simp

/-! ## The legacy add/remove flow

`src/lib/install.ts`, the `config.ts`/`tracking.ts` revisions inlined in
`src/lib/git.ts`, and the add/remove commands of `src/unnamed/part_007`
and `part_009`.  The non-interactive path is modelled (`--yes`:
confirmation prompts answer their defaults). -/

inductive Platform where
  | win32 : Platform
  | darwin : Platform
  | linux : Platform
deriving DecidableEq, Repr

/-- `process.platform !== "win32"`. -/
def isSymlinkModeSupported (platform : Platform) : Bool :=
  decide (platform ≠ .win32)

def SYMLINK_MODE_MESSAGE : String :=
  "Symlink mode is currently supported on macOS/unix only. Use --mode copy or --no-symlink."

def assertInstallModeSupported (platform : Platform) (mode : InstallMode) :
    Except String Unit :=
  if mode = .symlink ∧ isSymlinkModeSupported platform = false then
    .error SYMLINK_MODE_MESSAGE
  else .ok ()

/-- `materializeAgentFile`: the mode assertion runs first, before the
mkdir / overwrite-check / unlink / write sequence. -/
def materializeAgentFile (platform : Platform) (fs : Fs)
    (sourcePath targetDir : Path) (installPath : String)
    (mode : InstallMode) (overwrite : Bool) : Except String Fs :=
  match assertInstallModeSupported platform mode with
  | .error e => .error e
  | .ok _ =>
    let targetPath := targetDir ++ [installPath]
    let fs1 := Fs.mkdirp fs targetPath.dropLast
    if Fs.existsSync fs1 targetPath ∧ overwrite = false then
      .error ("Target exists: " ++ installPath)
    else
      let fs2 := if Fs.existsSync fs1 targetPath then
        Fs.removeOne fs1 targetPath else fs1
      if mode = .symlink then
        .ok (Fs.insert fs2 targetPath
          (.symlink (relSegs targetPath.dropLast sourcePath)))
      else
        match Fs.statEntry fs2 sourcePath with
        | some (.file c) => .ok (Fs.insert fs2 targetPath (.file c))
        | some (.jsonFile v) => .ok (Fs.insert fs2 targetPath (.jsonFile v))
        | some .dir => .error ("EISDIR: copyFile " ++ installPath)
        | _ => .error ("ENOENT: copyFile " ++ installPath)

/-- Modelled from the spec: the tracking-module revision that stores a
canonical-path reference on each record (the `InstalledAgent` of the data
model, with optional `canonicalPath`, keyed by installed relative path)
is absent from the source snapshot — the snapshot's `addAgentTracking`
revisions predate that field, while `lib/install.ts` already passes it.
The per-directory `.agntx.json` store is modelled as explicit state. -/
structure InstalledAgent where
  name : String
  source : String
  installedAt : String
  symlink : Bool
  path : String
  installedPath : String
  canonicalPath : Option Path
deriving DecidableEq, Repr

abbrev Tracking := List (Path × List (String × InstalledAgent))

def Tracking.lookup : Tracking → Path →
    Option (List (String × InstalledAgent))
  | [], _ => none
  | (d, v) :: rest, p => if d = p then some v else Tracking.lookup rest p

def getInstalledAgents (tr : Tracking) (agentDir : Path) :
    List (String × InstalledAgent) :=
  (Tracking.lookup tr agentDir).getD []

def Tracking.set (tr : Tracking) (dir : Path)
    (v : List (String × InstalledAgent)) : Tracking := (dir, v) :: tr

def addAgentTracking (tr : Tracking) (agentDir : Path)
    (agentName source : String) (symlink : Bool)
    (agentPath installedPath : String) (canonicalPath : Option Path)
    (now : String) : Tracking :=
  Tracking.set tr agentDir
    ((installedPath, InstalledAgent.mk agentName source now symlink
        agentPath installedPath canonicalPath) ::
      (getInstalledAgents tr agentDir).filter
        (fun kv => decide (kv.1 ≠ installedPath)))

def removeAgentTracking (tr : Tracking) (agentDir : Path)
    (installedPath : String) : Tracking :=
  Tracking.set tr agentDir
    ((getInstalledAgents tr agentDir).filter
      (fun kv => decide (kv.1 ≠ installedPath)))

structure LegacyState where
  fs : Fs
  tracking : Tracking

/-- `installAgent`: materialize, then record the tracking entry. -/
def installAgent (platform : Platform) (st : LegacyState)
    (agentName agentPath installPath : String) (sourcePath targetDir : Path)
    (source : String) (mode : InstallMode) (overwrite : Bool)
    (canonicalPath : Option Path) (now : String) :
    Except String LegacyState :=
  match materializeAgentFile platform st.fs sourcePath targetDir installPath
      mode overwrite with
  | .error e => .error e
  | .ok fs' =>
    .ok (LegacyState.mk fs'
      (addAgentTracking st.tracking targetDir agentName source
        (decide (mode = .symlink)) agentPath installPath canonicalPath now))

/-- `uninstallAgent`: false (no-op) when the target does not exist, else
unlink it and drop the tracking entry. -/
def uninstallAgent (st : LegacyState) (installedPath : String)
    (targetDir : Path) : Bool × LegacyState :=
  let targetPath := targetDir ++ [installedPath]
  if Fs.existsSync st.fs targetPath then
    (true, LegacyState.mk (Fs.removeOne st.fs targetPath)
      (removeAgentTracking st.tracking targetDir installedPath))
  else (false, st)

inductive LegacyTool where
  | cursor : LegacyTool
  | claude : LegacyTool
  | codex : LegacyTool
deriving DecidableEq, Repr

def legacyToolSeg : LegacyTool → String
  | .cursor => ".cursor"
  | .claude => ".claude"
  | .codex => ".codex"

def legacyToolName : LegacyTool → String
  | .cursor => "cursor"
  | .claude => "claude"
  | .codex => "codex"

def getAllAgentTools : List LegacyTool := [.cursor, .claude, .codex]

/-- `getAgentDirs`: the project-relative tool dir resolved against the
working directory, or the home-anchored global dir. -/
def getAgentDirs (homedir cwd : Path) (tool : LegacyTool) (global : Bool) :
    Path :=
  if global then homedir ++ [legacyToolSeg tool, "agents"]
  else cwd ++ [legacyToolSeg tool, "agents"]

/-- Modelled from the spec: the config revision defining the legacy
canonical agent directory is absent from the source snapshot; per the
layered-target description the canonical area lives under the scope
base's `.agents` tree (`<scope-base>/.agents/agents` for agent files). -/
def getCanonicalAgentDir (homedir cwd : Path) (global : Bool) : Path :=
  if global then homedir ++ [".agents", "agents"]
  else cwd ++ [".agents", "agents"]

/-! ### The removal engine (src/unnamed/part_007) -/

structure InstalledEntry where
  name : String
  installedPath : String
  tool : LegacyTool
  dir : Path
  canonicalPath : Option Path
deriving DecidableEq, Repr

def collectInstalledEntries (homedir cwd : Path) (st : LegacyState)
    (tools : List LegacyTool) (global : Bool) : List InstalledEntry :=
  tools.flatMap (fun tool =>
    let agentDir := getAgentDirs homedir cwd tool global
    if Fs.existsSync st.fs agentDir then
      (getInstalledAgents st.tracking agentDir).map (fun kv =>
        InstalledEntry.mk kv.2.name
          (if kv.2.installedPath = "" then kv.1 else kv.2.installedPath)
          tool agentDir kv.2.canonicalPath)
    else [])

/-- `isCanonicalPathReferenced` re-reads every tool's tracking store
(paths are already absolute in the model, so `path.resolve` is the
identity). -/
def isCanonicalPathReferenced (homedir cwd : Path) (st : LegacyState)
    (canonicalPath : Path) (global : Bool) : Bool :=
  getAllAgentTools.any (fun tool =>
    let agentDir := getAgentDirs homedir cwd tool global
    Fs.existsSync st.fs agentDir &&
    (getInstalledAgents st.tracking agentDir).any (fun kv =>
      match kv.2.canonicalPath with
      | some cp => decide (cp = canonicalPath)
      | none => false))

/-- The `pruneEmptyCanonicalDirs` while-loop, fuelled by the starting
depth (each iteration strictly shortens the current directory). -/
def pruneEmptyCanonicalDirsAux (root : Path) : Nat → Fs → Path → Fs
  | 0, fs, _ => fs
  | fuel + 1, fs, currentDir =>
    if under root currentDir = true ∧ currentDir ≠ root then
      if (Fs.readdir fs currentDir).length > 0 then fs
      else pruneEmptyCanonicalDirsAux root fuel (Fs.removeOne fs currentDir)
        currentDir.dropLast
    else fs

def pruneEmptyCanonicalDirs (fs : Fs) (fromPath root : Path) : Fs :=
  pruneEmptyCanonicalDirsAux root fromPath.length fs fromPath.dropLast

/-- `removeCanonicalIfUnreferenced` with its out-of-scope guard; the
third component carries the emitted warnings. -/
def removeCanonicalIfUnreferenced (homedir cwd : Path) (st : LegacyState)
    (canonicalPath : Path) (global : Bool) :
    Bool × LegacyState × List String :=
  let canonicalRoot := getCanonicalAgentDir homedir cwd global
  if canonicalPath ≠ canonicalRoot ∧
      ¬(under canonicalRoot canonicalPath = true ∧
        canonicalRoot.length < canonicalPath.length) then
    (false, st, ["Skipped deleting out-of-scope canonical path: " ++
      String.intercalate "/" canonicalPath])
  else if Fs.existsSync st.fs canonicalPath = false then (false, st, [])
  else
    (true, LegacyState.mk
      (pruneEmptyCanonicalDirs (Fs.removeOne st.fs canonicalPath)
        canonicalPath canonicalRoot)
      st.tracking, [])

/-- The body of `removeCommand`'s removal loop (lines 195-219): uninstall
the tool-level target, and on success check references and possibly drop
the canonical file.  The accumulator carries state, removed count and
logs. -/
def removeOneEntry (homedir cwd : Path) (global : Bool)
    (acc : LegacyState × Nat × List String) (entry : InstalledEntry) :
    LegacyState × Nat × List String :=
  match uninstallAgent acc.1 entry.installedPath entry.dir with
  | (false, st') => (st', acc.2.1, acc.2.2)
  | (true, st') =>
    match entry.canonicalPath with
    | none => (st', acc.2.1 + 1, acc.2.2)
    | some cp =>
      if isCanonicalPathReferenced homedir cwd st' cp global then
        (st', acc.2.1 + 1, acc.2.2)
      else
        match removeCanonicalIfUnreferenced homedir cwd st' cp global with
        | (_, st'', logs) => (st'', acc.2.1 + 1, acc.2.2 ++ logs)

def removeEntriesLoop (homedir cwd : Path) (global : Bool)
    (st0 : LegacyState) (entries : List InstalledEntry) :
    LegacyState × Nat × List String :=
  entries.foldl (removeOneEntry homedir cwd global) (st0, 0, [])

/-! ### The legacy add loop (src/unnamed/part_009 lines 217-287) -/

structure AddAgentItem where
  name : String
  path : String
  installPath : String
deriving DecidableEq, Repr

structure AddRunState where
  fs : Fs
  tracking : Tracking
  installedCount : Nat
  errors : List String

/-- The per-tool body of the add loop's inner fan-out (non-interactive:
`overwrite` stays true); a failure is caught, logged and skipped. -/
def addToolStep (platform : Platform) (homedir cwd : Path) (global : Bool)
    (installMode : InstallMode) (source : String) (agent : AddAgentItem)
    (canonicalPath : Path) (now : String)
    (st : AddRunState) (tool : LegacyTool) : AddRunState :=
  let targetDir := getAgentDirs homedir cwd tool global
  match installAgent platform (LegacyState.mk st.fs st.tracking) agent.name
      agent.path agent.installPath canonicalPath targetDir source
      installMode true (some canonicalPath) now with
  | .error e => AddRunState.mk st.fs st.tracking st.installedCount
      (st.errors ++ ["Failed to install " ++ agent.name ++ " to " ++
        legacyToolName tool ++ ": " ++ e])
  | .ok st' => AddRunState.mk st'.fs st'.tracking (st.installedCount + 1)
      st.errors

/-- The per-agent body of the add loop: canonical materialization always
in copy mode; a canonical failure is caught, logged, and skips the tool
fan-out for that agent. -/
def addAgentStep (platform : Platform) (homedir cwd : Path) (global : Bool)
    (installMode : InstallMode) (source : String) (repoPath canonicalDir :
    Path) (targetTools : List LegacyTool) (now : String)
    (st : AddRunState) (agent : AddAgentItem) : AddRunState :=
  let sourcePath := repoPath ++ [agent.path]
  let canonicalPath := canonicalDir ++ [agent.installPath]
  match materializeAgentFile platform st.fs sourcePath canonicalDir
      agent.installPath .copy true with
  | .error e => AddRunState.mk st.fs st.tracking st.installedCount
      (st.errors ++ ["Failed to materialize canonical file for " ++
        agent.name ++ ": " ++ e])
  | .ok fs1 =>
    targetTools.foldl
      (addToolStep platform homedir cwd global installMode source agent
        canonicalPath now)
      (AddRunState.mk fs1 st.tracking st.installedCount st.errors)

def addCommandLoop (platform : Platform) (homedir cwd : Path)
    (global : Bool) (installMode : InstallMode) (source : String)
    (repoPath canonicalDir : Path) (targetTools : List LegacyTool)
    (now : String) (fs0 : Fs) (tr0 : Tracking)
    (agents : List AddAgentItem) : AddRunState :=
  agents.foldl
    (addAgentStep platform homedir cwd global installMode source repoPath
      canonicalDir targetTools now)
    (AddRunState.mk fs0 tr0 0 [])

theorem materializeAgentFile_win32_symlink (fs : Fs)
    (sourcePath targetDir : Path) (installPath : String)
    (overwrite : Bool) :
    materializeAgentFile .win32 fs sourcePath targetDir installPath
      .symlink overwrite = .error SYMLINK_MODE_MESSAGE := rfl

theorem addToolStep_win32_symlink (homedir cwd : Path) (global : Bool)
    (source : String) (agent : AddAgentItem) (canonicalPath : Path)
    (now : String) (st : AddRunState) (tool : LegacyTool) :
    addToolStep .win32 homedir cwd global .symlink source agent
      canonicalPath now st tool =
      AddRunState.mk st.fs st.tracking st.installedCount
        (st.errors ++ ["Failed to install " ++ agent.name ++ " to " ++
          legacyToolName tool ++ ": " ++ SYMLINK_MODE_MESSAGE]) := by
  unfold addToolStep installAgent
  dsimp only
  rw [materializeAgentFile_win32_symlink]

theorem addToolStep_foldl_win32_symlink (homedir cwd : Path)
    (global : Bool) (source : String) (agent : AddAgentItem)
    (canonicalPath : Path) (now : String) (tools : List LegacyTool) :
    ∀ st : AddRunState,
      tools.foldl (addToolStep .win32 homedir cwd global .symlink source
        agent canonicalPath now) st =
      AddRunState.mk st.fs st.tracking st.installedCount
        (st.errors ++ tools.map (fun t =>
          "Failed to install " ++ agent.name ++ " to " ++
            legacyToolName t ++ ": " ++ SYMLINK_MODE_MESSAGE)) := by
  induction tools with
  | nil =>
    intro st
    simp [List.foldl]
  | cons t ts ih =>
    intro st
    rw [List.foldl_cons]
    rw [addToolStep_win32_symlink]
    rw [ih]
    simp

/-- Claim C7 (amended): selecting symlink mode on the Windows-style
platform does not make the run fail fast — the canonical copy is
materialized first (always in copy mode, untouched by the assertion) —
but every tool-level materialization fails with the remediation message
(use copy mode) before performing any write of its own: the error is
raised by the mode assertion ahead of the mkdir/unlink/write sequence,
caught per tool, logged, and the run continues with nothing installed at
the tool level. -/
theorem addCommand_win32_symlink_no_failfast
    (homedir cwd : Path) (global : Bool) (source now : String)
    (repoPath canonicalDir : Path) (tools : List LegacyTool)
    (st : AddRunState) (agent : AddAgentItem) (fs1 : Fs)
    (hmat : materializeAgentFile .win32 st.fs (repoPath ++ [agent.path])
      canonicalDir agent.installPath .copy true = .ok fs1) :
    addAgentStep .win32 homedir cwd global .symlink source repoPath
      canonicalDir tools now st agent =
      AddRunState.mk fs1 st.tracking st.installedCount
        (st.errors ++ tools.map (fun t =>
          "Failed to install " ++ agent.name ++ " to " ++
            legacyToolName t ++ ": " ++ SYMLINK_MODE_MESSAGE)) := by
  unfold addAgentStep
  dsimp only
  rw [hmat]
  dsimp only
  rw [addToolStep_foldl_win32_symlink]

/-- One agent file in a local repo, for the win32 runs. -/
def c7Fs : Fs :=
  [((["repo"] : Path), FsEntry.dir),
   ((["repo", "helper.md"] : Path), FsEntry.file "body")]

def c7Res : AddRunState :=
  addCommandLoop .win32 ["home"] ["home", "proj"] false .symlink
    "o/r:agents" ["repo"] ["home", "proj", ".agents", "agents"]
    [.claude] "t0" c7Fs [] [AddAgentItem.mk "helper" "helper.md" "helper.md"]

/-- Claim C7, counterexample to the frozen wording: with symlink mode on
the Windows-style platform the run neither fails fast nor avoids writes —
the canonical copy is written to disk, the per-tool failure is caught
(the loop returns normally with the remediation message logged), and
nothing reaches the tool directories. -/
theorem addCommand_win32_symlink_writes_canonical :
    Fs.lookup c7Res.fs ["home", "proj", ".agents", "agents", "helper.md"] =
      some (FsEntry.file "body") ∧
    c7Res.installedCount = 0 ∧
    c7Res.errors =
      ["Failed to install helper to claude: " ++ SYMLINK_MODE_MESSAGE] ∧
    Fs.lookup c7Res.fs ["home", "proj", ".claude", "agents", "helper.md"] =
      none :=
  ⟨rfl, rfl, rfl, rfl⟩

/-- Claim C7 witness: the amended theorem applied at the concrete win32
run above. -/
theorem addCommand_win32_symlink_no_failfast_witness :
    addAgentStep .win32 ["home"] ["home", "proj"] false .symlink
      "o/r:agents" ["repo"] ["home", "proj", ".agents", "agents"]
      [.claude] "t0" (AddRunState.mk c7Fs [] 0 [])
      (AddAgentItem.mk "helper" "helper.md" "helper.md") =
      AddRunState.mk
        (Fs.insert (Fs.mkdirp c7Fs ["home", "proj", ".agents", "agents"])
          ["home", "proj", ".agents", "agents", "helper.md"]
          (FsEntry.file "body"))
        [] 0
        ["Failed to install helper to claude: " ++ SYMLINK_MODE_MESSAGE] :=
  addCommand_win32_symlink_no_failfast ["home"] ["home", "proj"] false
    "o/r:agents" "t0" ["repo"] ["home", "proj", ".agents", "agents"]
    [.claude] (AddRunState.mk c7Fs [] 0 [])
    (AddAgentItem.mk "helper" "helper.md" "helper.md")
    (Fs.insert (Fs.mkdirp c7Fs ["home", "proj", ".agents", "agents"])
      ["home", "proj", ".agents", "agents", "helper.md"]
      (FsEntry.file "body"))
    rfl

theorem uninstallAgent_found (st : LegacyState) (ip : String)
    (dir : Path) (h : Fs.existsSync st.fs (dir ++ [ip]) = true) :
    uninstallAgent st ip dir =
      (true, LegacyState.mk (Fs.removeOne st.fs (dir ++ [ip]))
        (removeAgentTracking st.tracking dir ip)) := by
  unfold uninstallAgent
  dsimp only
  rw [if_pos h]

theorem Fs.lookup_filter_of_none (pred : Path × FsEntry → Bool) (fs : Fs)
    (p : Path) (h : Fs.lookup fs p = none) :
    Fs.lookup (fs.filter pred) p = none := by
  induction fs with
  | nil => simp [Fs.lookup]
  | cons kv rest ih =>
    obtain ⟨q, e⟩ := kv
    by_cases hq : q = p
    · subst hq
      simp [Fs.lookup] at h
    · simp only [Fs.lookup, if_neg hq] at h
      by_cases hp : pred (q, e) = true
      · simp only [List.filter_cons, hp, Fs.lookup, if_neg hq]
        exact ih h
      · simp only [List.filter_cons]
        rw [Bool.not_eq_true] at hp
        rw [hp]
        exact ih h

theorem Fs.lookup_removeOne_self (fs : Fs) (p : Path) :
    Fs.lookup (Fs.removeOne fs p) p = none := by
  unfold Fs.removeOne
  exact Fs.lookup_filter_none _ _ _ (fun e => by simp)

theorem Fs.lookup_removeOne_of_none (fs : Fs) (p q : Path)
    (h : Fs.lookup fs q = none) :
    Fs.lookup (Fs.removeOne fs p) q = none := by
  unfold Fs.removeOne
  exact Fs.lookup_filter_of_none _ _ _ h

theorem pruneEmptyCanonicalDirsAux_lookup_none (root : Path) (fuel : Nat) :
    ∀ (fs : Fs) (d q : Path), Fs.lookup fs q = none →
      Fs.lookup (pruneEmptyCanonicalDirsAux root fuel fs d) q = none := by
  induction fuel with
  | zero =>
    intro fs d q h
    simpa [pruneEmptyCanonicalDirsAux] using h
  | succ fuel ih =>
    intro fs d q h
    unfold pruneEmptyCanonicalDirsAux
    by_cases h1 : under root d = true ∧ d ≠ root
    · rw [if_pos h1]
      by_cases h2 : (Fs.readdir fs d).length > 0
      · rw [if_pos h2]
        exact h
      · rw [if_neg h2]
        exact ih _ _ _ (Fs.lookup_removeOne_of_none _ _ _ h)
    · rw [if_neg h1]
      exact h

theorem removeCanonicalIfUnreferenced_tracking (homedir cwd : Path)
    (st : LegacyState) (cp : Path) (global : Bool) :
    (removeCanonicalIfUnreferenced homedir cwd st cp global).2.1.tracking =
      st.tracking := by
  unfold removeCanonicalIfUnreferenced
  dsimp only
  split
  · rfl
  · split
    · rfl
    · rfl

theorem removeCanonicalIfUnreferenced_out_of_scope (homedir cwd : Path)
    (st : LegacyState) (cp : Path) (global : Bool)
    (hout : cp ≠ getCanonicalAgentDir homedir cwd global ∧
      ¬(under (getCanonicalAgentDir homedir cwd global) cp = true ∧
        (getCanonicalAgentDir homedir cwd global).length < cp.length)) :
    removeCanonicalIfUnreferenced homedir cwd st cp global =
      (false, st, ["Skipped deleting out-of-scope canonical path: " ++
        String.intercalate "/" cp]) := by
  unfold removeCanonicalIfUnreferenced
  dsimp only
  rw [if_pos hout]

theorem removeCanonicalIfUnreferenced_in_scope (homedir cwd : Path)
    (st : LegacyState) (cp : Path) (global : Bool) (e : FsEntry)
    (hin : under (getCanonicalAgentDir homedir cwd global) cp = true)
    (hlen : (getCanonicalAgentDir homedir cwd global).length < cp.length)
    (he : Fs.lookup st.fs cp = some e) (hnl : e.isSymbolicLink = false) :
    removeCanonicalIfUnreferenced homedir cwd st cp global =
      (true, LegacyState.mk
        (pruneEmptyCanonicalDirs (Fs.removeOne st.fs cp) cp
          (getCanonicalAgentDir homedir cwd global))
        st.tracking, []) := by
  unfold removeCanonicalIfUnreferenced
  dsimp only
  rw [if_neg (show ¬(cp ≠ getCanonicalAgentDir homedir cwd global ∧
    ¬(under (getCanonicalAgentDir homedir cwd global) cp = true ∧
      (getCanonicalAgentDir homedir cwd global).length < cp.length)) by
    intro hc
    exact hc.2 ⟨hin, hlen⟩)]
  rw [Fs.existsSync_of_lookup_nonlink st.fs cp e he hnl]
  rw [if_neg (by simp)]

/-- Claim C3: in the removal loop, once the tool-level target is deleted
and its tracking entry removed, the canonical file named by the record is
deleted (its parent directories pruned up to the canonical-root boundary)
if and only if no remaining tracked record across all tools references
the same canonical path; and a canonical path outside the canonical-root
subtree is refused with a warning, leaving the state as after the
tool-level deletion, with no exception (the loop body is a total
function). -/
theorem removeCommand_canonical_lifecycle
    (homedir cwd : Path) (global : Bool) (st : LegacyState) (n : Nat)
    (logs : List String) (entry : InstalledEntry) (cp : Path) (e : FsEntry)
    (hcp : entry.canonicalPath = some cp)
    (htarget : Fs.existsSync st.fs
      (entry.dir ++ [entry.installedPath]) = true)
    (he : Fs.lookup (Fs.removeOne st.fs
      (entry.dir ++ [entry.installedPath])) cp = some e)
    (hnl : e.isSymbolicLink = false) :
    (removeOneEntry homedir cwd global (st, n, logs) entry).1.tracking =
      removeAgentTracking st.tracking entry.dir entry.installedPath ∧
    (removeOneEntry homedir cwd global (st, n, logs) entry).2.1 = n + 1 ∧
    (under (getCanonicalAgentDir homedir cwd global) cp = true →
      (getCanonicalAgentDir homedir cwd global).length < cp.length →
      (Fs.lookup
          (removeOneEntry homedir cwd global (st, n, logs) entry).1.fs cp =
          none ↔
        isCanonicalPathReferenced homedir cwd
          (uninstallAgent st entry.installedPath entry.dir).2 cp global =
          false)) ∧
    (cp ≠ getCanonicalAgentDir homedir cwd global ∧
      ¬(under (getCanonicalAgentDir homedir cwd global) cp = true ∧
        (getCanonicalAgentDir homedir cwd global).length < cp.length) →
      isCanonicalPathReferenced homedir cwd
        (uninstallAgent st entry.installedPath entry.dir).2 cp global =
        false →
      (removeOneEntry homedir cwd global (st, n, logs) entry).1 =
        (uninstallAgent st entry.installedPath entry.dir).2 ∧
      (removeOneEntry homedir cwd global (st, n, logs) entry).2.2 =
        logs ++ ["Skipped deleting out-of-scope canonical path: " ++
          String.intercalate "/" cp]) := by
  have hu := uninstallAgent_found st entry.installedPath entry.dir htarget
  unfold removeOneEntry
  dsimp only
  rw [hu]
  dsimp only
  rw [hcp]
  dsimp only
  by_cases href : isCanonicalPathReferenced homedir cwd
      (LegacyState.mk
        (Fs.removeOne st.fs (entry.dir ++ [entry.installedPath]))
        (removeAgentTracking st.tracking entry.dir entry.installedPath))
      cp global = true
  · rw [if_pos href]
    dsimp only
    refine ⟨rfl, rfl, ?_, ?_⟩
    · intro hin hlen
      rw [he]
      rw [href]
      simp
    · intro hout hunref
      rw [href] at hunref
      cases hunref
  · rw [if_neg href]
    rw [Bool.not_eq_true] at href
    rcases hrc : removeCanonicalIfUnreferenced homedir cwd
        (LegacyState.mk
          (Fs.removeOne st.fs (entry.dir ++ [entry.installedPath]))
          (removeAgentTracking st.tracking entry.dir entry.installedPath))
        cp global with ⟨b, st2, logs2⟩
    dsimp only
    have htr := removeCanonicalIfUnreferenced_tracking homedir cwd
      (LegacyState.mk
        (Fs.removeOne st.fs (entry.dir ++ [entry.installedPath]))
        (removeAgentTracking st.tracking entry.dir entry.installedPath))
      cp global
    rw [hrc] at htr
    refine ⟨htr, rfl, ?_, ?_⟩
    · intro hin hlen
      have h7 := removeCanonicalIfUnreferenced_in_scope homedir cwd
        (LegacyState.mk
          (Fs.removeOne st.fs (entry.dir ++ [entry.installedPath]))
          (removeAgentTracking st.tracking entry.dir entry.installedPath))
        cp global e hin hlen he hnl
      have hpair := hrc.symm.trans h7
      simp only [Prod.mk.injEq] at hpair
      obtain ⟨-, hst2, -⟩ := hpair
      rw [hst2]
      dsimp only
      rw [href]
      simp only [iff_true]
      exact pruneEmptyCanonicalDirsAux_lookup_none _ _ _ _ _
        (Fs.lookup_removeOne_self _ _)
    · intro hout hunref
      have h6 := removeCanonicalIfUnreferenced_out_of_scope homedir cwd
        (LegacyState.mk
          (Fs.removeOne st.fs (entry.dir ++ [entry.installedPath]))
          (removeAgentTracking st.tracking entry.dir entry.installedPath))
        cp global hout
      have hpair := hrc.symm.trans h6
      simp only [Prod.mk.injEq] at hpair
      obtain ⟨-, hst2, hlogs2⟩ := hpair
      rw [hst2, hlogs2]
      exact ⟨rfl, rfl⟩

/-- A local-scope state with one claude-installed agent whose record
references a canonical file, referenced by no other tool. -/
def c3Fs : Fs :=
  [((["h", "p", ".claude", "agents"] : Path), FsEntry.dir),
   ((["h", "p", ".claude", "agents", "helper.md"] : Path),
     FsEntry.file "x"),
   ((["h", "p", ".agents", "agents"] : Path), FsEntry.dir),
   ((["h", "p", ".agents", "agents", "helper.md"] : Path),
     FsEntry.file "body")]

def c3Tr : Tracking :=
  [(["h", "p", ".claude", "agents"],
    [("helper.md", InstalledAgent.mk "helper" "src" "t" false
      "agents/helper.md" "helper.md"
      (some ["h", "p", ".agents", "agents", "helper.md"]))])]

def c3Entry : InstalledEntry :=
  InstalledEntry.mk "helper" "helper.md" .claude
    ["h", "p", ".claude", "agents"]
    (some ["h", "p", ".agents", "agents", "helper.md"])

/-- Claim C3 witness: at the concrete state above, removing the one
record that references the canonical file deletes the canonical file. -/
theorem removeCommand_canonical_lifecycle_witness :
    Fs.lookup (removeOneEntry ["h"] ["h", "p"] false
        (LegacyState.mk c3Fs c3Tr, 0, []) c3Entry).1.fs
      ["h", "p", ".agents", "agents", "helper.md"] = none := by
  have h := removeCommand_canonical_lifecycle ["h"] ["h", "p"] false
    (LegacyState.mk c3Fs c3Tr) 0 [] c3Entry
    ["h", "p", ".agents", "agents", "helper.md"] (FsEntry.file "body")
    rfl (by decide) rfl rfl
  exact (h.2.2.1 (by decide) (by decide)).mpr (by decide)

end Agntx
